import Mathlib

/-!
# LinuxThreads support of the collector (`boehm_gc/linux_threads.c`)

A shallow embedding of the thread table, the stop/start controller, the
stack enumerator and the lifecycle interceptors of `linux_threads.c`.

Representation.

* A `pthread_t` and a `word` are natural numbers.
* A thread record (`struct GC_Thread_Rep`) is a Lean structure.  The C code
  compares records by pointer, so every record carries its own address in
  the field `addr`; the field `next` of the C structure is represented by
  the position of the record in the list of its bucket.
* A bucket of `GC_threads` is the list of the records of its chain, in chain
  order: the head of the list is the record `GC_threads[hv]` points to.
* A function that dereferences a null pointer, or calls `ABORT`, returns
  `none`.
* Calls that leave the file (the allocator, `pthread_kill`, `pthread_create`,
  `sem_init`, ...) take their outcome as an argument.
-/

namespace LinuxThreads

/-! ## Data model -/

/-- Flag bit: the thread has exited. -/
def FINISHED : Nat := 1

/-- Flag bit: the thread is intended to be detached. -/
def DETACHED : Nat := 2

/-- Flag bit: true for the original thread only. -/
def MAIN_THREAD : Nat := 4

/-- Number of buckets of `GC_threads`. -/
def THREAD_TABLE_SZ : Nat := 128

/-- The structure `struct GC_Thread_Rep`.  `addr` is the address of the
record (what a `GC_thread` pointer to it holds); `next` is implicit in the
bucket list. -/
structure GC_Thread_Rep where
  addr : Nat
  id : Nat
  flags : Nat
  stack_end : Nat
  stack_ptr : Nat
  signal : Nat
  status : Nat
  deriving DecidableEq, Repr

/-- The test `p -> flags & bit` of the C code, for a one-bit mask. -/
def hasFlag (p : GC_Thread_Rep) (bit : Nat) : Bool :=
  p.flags &&& bit != 0

/-- The two signal handlers of the file. -/
inductive Handler where
  | GC_suspend_handler
  | GC_restart_handler
  deriving DecidableEq, Repr

/-- What `sigaction` installs: handler, `sa_mask` and `sa_flags`. -/
structure Sigaction where
  handler : Handler
  mask : Finset Nat
  sa_flags : Nat
  deriving DecidableEq

/-- The global variables of the file that the embedded functions read or
write.  `first_thread` and `first_thread_used` are the two `static`
variables of `GC_new_thread`. -/
structure GCState where
  GC_threads : Nat → List GC_Thread_Rep
  first_thread : GC_Thread_Rep
  first_thread_used : Bool
  GC_thr_initialized : Bool
  GC_suspend_ack_sem : Nat
  suspend_action : Option Sigaction
  restart_action : Option Sigaction

/-- The bucket index `((word)id) % THREAD_TABLE_SZ`. -/
def hv (id : Nat) : Nat := id % THREAD_TABLE_SZ

/-- Store `l` as the chain of bucket `i`. -/
def setBucket (s : GCState) (i : Nat) (l : List GC_Thread_Rep) : GCState :=
  { s with GC_threads := Function.update s.GC_threads i l }

/-- The records of the table in the order in which the loops
`for (i = 0; i < THREAD_TABLE_SZ; i++) for (p = GC_threads[i]; p != 0; p = p -> next)`
visit them. -/
def allRecords (s : GCState) : List GC_Thread_Rep :=
  (List.range THREAD_TABLE_SZ).flatMap s.GC_threads

/-! ## Thread table -/

/-- The function `GC_new_thread`.  `malloc` is the outcome of
`GC_generic_malloc_inner`: `none` for a null result, otherwise the block it
returned (its address and the contents it has on return).  The function
writes `id` and `next` only; the assignment to `flags` is commented out in
the source. -/
def GC_new_thread (s : GCState) (id : Nat) (malloc : Option GC_Thread_Rep) :
    GCState × Option GC_Thread_Rep :=
  let s1 : GCState := if s.first_thread_used then s else { s with first_thread_used := true }
  let result : Option GC_Thread_Rep := if s.first_thread_used then malloc else some s.first_thread
  match result with
  | none => (s1, none)
  | some blk =>
    let r : GC_Thread_Rep := { blk with id := id }
    (setBucket s1 (hv id) (r :: s1.GC_threads (hv id)), some r)

/-- The loop and the unlinking of `GC_delete_thread` on one chain: the first
record with the given id is removed.  Running off the end of the chain
dereferences a null pointer. -/
def unlinkId (id : Nat) : List GC_Thread_Rep → Option (List GC_Thread_Rep)
  | [] => none
  | p :: rest =>
    if p.id = id then some rest
    else (unlinkId id rest).map (fun l => p :: l)

/-- The function `GC_delete_thread`. -/
def GC_delete_thread (s : GCState) (id : Nat) : Option GCState :=
  (unlinkId id (s.GC_threads (hv id))).map (fun l => setBucket s (hv id) l)

/-- The loop and the unlinking of `GC_delete_gc_thread` on one chain: the
record at address `gc_id` is removed.  When the chain ends before `gc_id` is
met the code dereferences a null pointer (in the loop, or after it when
`gc_id` is itself null). -/
def unlinkPtr (gc_id : Nat) : List GC_Thread_Rep → Option (List GC_Thread_Rep)
  | [] => none
  | p :: rest =>
    if p.addr = gc_id then some rest
    else (unlinkPtr gc_id rest).map (fun l => p :: l)

/-- The function `GC_delete_gc_thread`. -/
def GC_delete_gc_thread (s : GCState) (id : Nat) (gc_id : Nat) : Option GCState :=
  (unlinkPtr gc_id (s.GC_threads (hv id))).map (fun l => setBucket s (hv id) l)

/-- The function `GC_lookup_thread`: the first record of the chain whose id
is `id`, `none` for a null result. -/
def GC_lookup_thread (s : GCState) (id : Nat) : Option GC_Thread_Rep :=
  (s.GC_threads (hv id)).find? (fun p => p.id = id)

/-! ## Constants of the platform headers -/

/-- The value of `ESRCH` in the Linux `errno.h`. -/
def ESRCH : Int := 3

/-- The value of `ENOMEM` in the Linux `errno.h`. -/
def ENOMEM : Int := 12

/-- The signal `SIGPWR` of the Linux `signal.h`. -/
def SIGPWR : Nat := 30

/-- The signal `SIGCONT` of the Linux `signal.h`. -/
def SIGCONT : Nat := 18

/-- The macro `SIG_SUSPEND`. -/
def SIG_SUSPEND : Nat := SIGPWR

/-- The macro `SIG_RESTART`. -/
def SIG_RESTART : Nat := SIGCONT

/-- The value of `SA_RESTART` in the Linux `signal.h`. -/
def SA_RESTART : Nat := 0x10000000

/-- A signal set (`sigset_t`): the set of the signal numbers in it. -/
abbrev Sigset := Finset Nat

/-- The set `sigfillset` produces: the signals 1 to 64. -/
def fullSigset : Sigset := (Finset.range 65).erase 0

/-! ## Stop/start controller -/

/-- What the controller does to the outside, in program order. -/
inductive Event where
  | sched_yield
  | pthread_kill (id : Nat) (sig : Nat)
  | sem_wait
  deriving DecidableEq, Repr

/-- The two nested loops of `GC_stop_world` and `GC_start_world` over the
records `ps` (the table in visiting order).  `kill k` is the value the
`k`-th call of `pthread_kill` returns, `k` counts the calls made so far and
`n` is `n_live_threads`.  The result is the list of the calls made and the
final `n_live_threads`; `none` is `ABORT("pthread_kill failed")`.  The counter
is an `int` in the source and an unbounded integer here: it never exceeds
the number of records of the table, each of which is a kernel thread. -/
def signalWalk (my_thread sig : Nat) (kill : Nat → Int) :
    List GC_Thread_Rep → Nat → Int → Option (List Event × Int)
  | [], _, n => some ([], n)
  | p :: rest, k, n =>
    if p.id ≠ my_thread then
      if hasFlag p FINISHED then signalWalk my_thread sig kill rest k n
      else
        let n1 := n + 1
        let result := kill k
        if result = ESRCH then
          (signalWalk my_thread sig kill rest (k + 1) (n1 - 1)).map
            (fun r => (Event.pthread_kill p.id sig :: r.1, r.2))
        else if result = 0 then
          (signalWalk my_thread sig kill rest (k + 1) n1).map
            (fun r => (Event.pthread_kill p.id sig :: r.1, r.2))
        else none
    else signalWalk my_thread sig kill rest k n

/-- The function `GC_stop_world`, called by the thread `my_thread`
(`pthread_self()`).  The result is the trace of the calls it makes and the
value it stores in `prev_counter`. -/
def GC_stop_world (s : GCState) (my_thread : Nat) (kill : Nat → Int)
    (volatile_counter : Int) : Option (List Event × Int) :=
  match signalWalk my_thread SIG_SUSPEND kill (allRecords s) 0 0 with
  | none => none
  | some (sends, n_live_threads) =>
    some (Event.sched_yield :: sends ++ List.replicate n_live_threads.toNat Event.sem_wait,
      volatile_counter)

/-- The function `GC_start_world`; `none` is an `ABORT`. -/
def GC_start_world (s : GCState) (my_thread : Nat) (kill : Nat → Int)
    (volatile_counter prev_counter : Int) : Option (List Event) :=
  if volatile_counter ≠ prev_counter then none
  else (signalWalk my_thread SIG_RESTART kill (allRecords s) 0 0).map (fun r => r.1)

/-! ## Initialisation -/

/-- The values the library calls of `GC_thr_init` return, in program
order. -/
structure InitCalls where
  sem_init : Int
  sigfillset_1 : Int
  sigdelset_1 : Int
  sigaction_1 : Int
  sigfillset_2 : Int
  sigdelset_2 : Int
  sigaction_2 : Int

/-- The function `GC_thr_init`, called by the thread `self`.  `sp` is the
address of the local `t`, `malloc` the outcome of the allocation inside
`GC_new_thread`.  `none` is an `ABORT`, or the null dereference
`t -> stack_ptr` when `GC_new_thread` returned null. -/
def GC_thr_init (s : GCState) (self : Nat) (c : InitCalls)
    (malloc : Option GC_Thread_Rep) (sp : Nat) : Option GCState :=
  let s1 : GCState := { s with GC_thr_initialized := true }
  if c.sem_init ≠ 0 then none else
  let s2 : GCState := { s1 with GC_suspend_ack_sem := 0 }
  if c.sigfillset_1 ≠ 0 then none else
  if c.sigdelset_1 ≠ 0 then none else
  if c.sigaction_1 ≠ 0 then none else
  let act1 : Sigaction := ⟨Handler.GC_suspend_handler, fullSigset.erase SIG_RESTART, SA_RESTART⟩
  let s3 : GCState := { s2 with suspend_action := some act1 }
  if c.sigfillset_2 ≠ 0 then none else
  if c.sigdelset_2 ≠ 0 then none else
  if c.sigaction_2 ≠ 0 then none else
  let act2 : Sigaction := ⟨Handler.GC_restart_handler, fullSigset.erase SIG_RESTART, SA_RESTART⟩
  let s4 : GCState := { s3 with restart_action := some act2 }
  match GC_new_thread s4 self malloc with
  | (_, none) => none
  | (s5, some t) =>
    some (setBucket s5 (hv self)
      ({ t with stack_ptr := sp, flags := DETACHED ||| MAIN_THREAD } ::
        (s5.GC_threads (hv self)).tail))

/-- The statement `if (!GC_thr_initialized) GC_thr_init();` of
`GC_push_all_stacks` and `GC_pthread_create`. -/
def lazyInit (s : GCState) (self : Nat) (c : InitCalls)
    (malloc : Option GC_Thread_Rep) (sp : Nat) : Option GCState :=
  if s.GC_thr_initialized then some s else GC_thr_init s self c malloc sp

/-! ## Stack enumerator -/

/-- The constant `LINUX_THREADS_STACK_SIZE`. -/
def LINUX_THREADS_STACK_SIZE : Nat := 2 * 1024 * 1024

/-- The function `GC_linux_thread_top_of_stack` on a machine whose
`unsigned long` has `w` bits; `sp` is the value of `GC_approx_sp()`. -/
def GC_linux_thread_top_of_stack (w : Nat) (sp : Nat) : Nat :=
  ((sp ||| (LINUX_THREADS_STACK_SIZE - 1)) + 1) % 2 ^ w

/-- What the stack enumerator reads from outside the file: the word size,
the value `GC_approx_sp()` returns in the calling thread and the variable
`GC_stackbottom`. -/
structure StackEnv where
  wordBits : Nat
  GC_approx_sp : Nat
  GC_stackbottom : Nat

/-- The body of the inner loop of `GC_push_all_stacks` for the record `p`:
the arguments `(lo, hi)` of its call of `GC_push_all_stack`, or `none` when
the record is skipped by `continue`. -/
def stackRange (e : StackEnv) (me : Nat) (p : GC_Thread_Rep) : Option (Nat × Nat) :=
  if hasFlag p FINISHED then none
  else
    let lo := if p.id = me then e.GC_approx_sp else p.stack_ptr
    let hi :=
      if p.flags &&& MAIN_THREAD = 0 then
        if p.id = me then GC_linux_thread_top_of_stack e.wordBits e.GC_approx_sp
        else p.stack_end
      else e.GC_stackbottom
    some (lo, hi)

/-- The loops of `GC_push_all_stacks` over the records in visiting order:
the calls of `GC_push_all_stack`, in program order. -/
def pushWalk (e : StackEnv) (me : Nat) : List GC_Thread_Rep → List (Nat × Nat)
  | [] => []
  | p :: rest =>
    match stackRange e me p with
    | none => pushWalk e me rest
    | some r => r :: pushWalk e me rest

/-- The function `GC_push_all_stacks`, called by the thread `me`: the state
it leaves and the calls of `GC_push_all_stack` it makes. -/
def GC_push_all_stacks (s : GCState) (me : Nat) (e : StackEnv) (c : InitCalls)
    (malloc : Option GC_Thread_Rep) (sp : Nat) :
    Option (GCState × List (Nat × Nat)) :=
  match lazyInit s me c malloc sp with
  | none => none
  | some s1 => some (s1, pushWalk e me (allRecords s1))

/-! ## Signal mask interceptor -/

/-- The value of `SIG_BLOCK` in the Linux `signal.h`. -/
def SIG_BLOCK : Int := 0

/-- The value of `SIG_UNBLOCK` in the Linux `signal.h`. -/
def SIG_UNBLOCK : Int := 1

/-- The value of `SIG_SETMASK` in the Linux `signal.h`. -/
def SIG_SETMASK : Int := 2

/-- The value of `EINVAL` in the Linux `errno.h`. -/
def EINVAL : Int := 22

/-- The signals `SIGKILL` and `SIGSTOP`, which cannot be blocked. -/
def unblockable : Sigset := {9, 19}

/-- The library primitive `pthread_sigmask` as POSIX specifies it, on the
signal mask `mask` of the calling thread.  `set` is `none` for a null
pointer; `oset` tells whether the third argument is non-null.  The result is
the value returned, the new mask, and what is stored through `oset`. -/
def pthread_sigmask (mask : Sigset) (how : Int) (set : Option Sigset) (oset : Bool) :
    Int × Sigset × Option Sigset :=
  let old : Option Sigset := if oset then some mask else none
  match set with
  | none => (0, mask, old)
  | some st =>
    if how = SIG_BLOCK then (0, (mask ∪ st) \ unblockable, old)
    else if how = SIG_UNBLOCK then (0, mask \ st, old)
    else if how = SIG_SETMASK then (0, st \ unblockable, old)
    else (EINVAL, mask, none)

/-- The second argument `GC_pthread_sigmask` hands to `pthread_sigmask`:
`&fudged_set` after `sigdelset(&fudged_set, SIG_SUSPEND)` when `set` is not
null and `how` is `SIG_BLOCK` or `SIG_SETMASK`, otherwise `set` itself. -/
def fudgedSet (how : Int) (set : Option Sigset) : Option Sigset :=
  match set with
  | none => none
  | some st =>
    if how = SIG_BLOCK ∨ how = SIG_SETMASK then some (st.erase SIG_SUSPEND)
    else some st

/-- The function `GC_pthread_sigmask`. -/
def GC_pthread_sigmask (mask : Sigset) (how : Int) (set : Option Sigset) (oset : Bool) :
    Int × Sigset × Option Sigset :=
  pthread_sigmask mask how (fudgedSet how set) oset

/-- One client call of `sigmask`: its three arguments. -/
structure SigmaskCall where
  how : Int
  set : Option Sigset
  oset : Bool

/-- The signal mask of a thread after it made the calls `calls` of
`GC_pthread_sigmask`, starting with the mask `mask`. -/
def sigmaskRun (mask : Sigset) : List SigmaskCall → Sigset
  | [] => mask
  | c :: rest => sigmaskRun (GC_pthread_sigmask mask c.how c.set c.oset).2.1 rest

/-! ## Lifecycle interceptors -/

/-- The value of `PTHREAD_CREATE_JOINABLE` in the Linux `pthread.h`. -/
def PTHREAD_CREATE_JOINABLE : Int := 0

/-- The value of `PTHREAD_CREATE_DETACHED` in the Linux `pthread.h`. -/
def PTHREAD_CREATE_DETACHED : Int := 1

/-- What one call of `GC_pthread_create` receives from outside the file.
`attr` is the detach state of `*attr` (`none` for a null `attr`),
`GC_malloc` the address of the `start_info` (`none` for null), `init`,
`initMalloc` and `sp` the outcomes used by `GC_thr_init` when it runs,
`pthread_create` the result of the underlying primitive with the identity it
stores in `my_new_thread`, and `malloc` the outcome of the allocation of the
record. -/
structure CreateCalls where
  attr : Option Int
  GC_malloc : Option Nat
  init : InitCalls
  initMalloc : Option GC_Thread_Rep
  sp : Nat
  pthread_create : Int × Nat
  malloc : Option GC_Thread_Rep

/-- What `GC_pthread_create` leaves: the state, the value returned, the
calls of the underlying `pthread_create` it made (argument `si` of each),
and the value stored through `new_thread`. -/
structure CreateResult where
  state : GCState
  result : Int
  primitiveCalls : List Nat
  new_thread : Option Nat

/-- The function `GC_pthread_create`, called by the thread `self`.  `none`
is an `ABORT` in `GC_thr_init` or the null dereference `t -> flags` when
`GC_new_thread` returned null. -/
def GC_pthread_create (s : GCState) (self : Nat) (c : CreateCalls) : Option CreateResult :=
  match c.GC_malloc with
  | none => some ⟨s, ENOMEM, [], none⟩
  | some si =>
    match lazyInit s self c.init c.initMalloc c.sp with
    | none => none
    | some s1 =>
      let detachstate : Int := c.attr.getD PTHREAD_CREATE_JOINABLE
      let my_flags : Nat := if PTHREAD_CREATE_DETACHED = detachstate then 0 ||| DETACHED else 0
      let result : Int := c.pthread_create.1
      let my_new_thread : Nat := c.pthread_create.2
      if 0 = result then
        match GC_new_thread s1 my_new_thread c.malloc with
        | (_, none) => none
        | (s2, some t) =>
          some ⟨setBucket s2 (hv my_new_thread)
              ({ t with flags := my_flags, stack_ptr := 0, stack_end := 0 } ::
                (s2.GC_threads (hv my_new_thread)).tail),
            result, [si], some my_new_thread⟩
      else some ⟨s1, result, [si], none⟩

/-- A write through a pointer obtained from `GC_lookup_thread(id)`: the
first record of the chain with that id is replaced by `f` of it. -/
def modifyId (id : Nat) (f : GC_Thread_Rep → GC_Thread_Rep) :
    List GC_Thread_Rep → List GC_Thread_Rep
  | [] => []
  | p :: rest => if p.id = id then f p :: rest else p :: modifyId id f rest

/-- A write through the pointer `a` into a chain: the record at that
address is replaced by `f` of it. -/
def modifyPtr (a : Nat) (f : GC_Thread_Rep → GC_Thread_Rep) :
    List GC_Thread_Rep → List GC_Thread_Rep
  | [] => []
  | p :: rest => if p.addr = a then f p :: rest else p :: modifyPtr a f rest

/-- The function `GC_thread_exit_proc`, run by the thread `self` (the
part between `LOCK()` and `UNLOCK()`).  `none` is the null dereference
`me -> flags`, or the one in `GC_delete_thread`. -/
def GC_thread_exit_proc (s : GCState) (self : Nat) : Option GCState :=
  match GC_lookup_thread s self with
  | none => none
  | some me =>
    if hasFlag me DETACHED then GC_delete_thread s self
    else some (setBucket s (hv self)
      (modifyId self (fun p => { p with flags := p.flags ||| FINISHED })
        (s.GC_threads (hv self))))

/-- The first critical section of `GC_start_routine`, run by the thread
`self`: the pointer `me` (0 for null). -/
def GC_start_routine_lookup (s : GCState) (self : Nat) : Nat :=
  match GC_lookup_thread s self with
  | none => 0
  | some r => r.addr

/-- The end of `GC_start_routine`, run by the thread `self` after its user
routine returned `result`: the two writes through `me` and the exit hook
called by `pthread_cleanup_pop(1)`.  `none` is a null dereference. -/
def GC_start_routine_finish (s : GCState) (self me result : Nat) : Option GCState :=
  if me = 0 then none
  else
    let s1 := setBucket s (hv self)
      (modifyPtr me (fun p => { p with status := result, flags := p.flags ||| FINISHED })
        (s.GC_threads (hv self)))
    GC_thread_exit_proc s1 self

/-- The first critical section of `GC_pthread_join`: `thread_gc_id`
(0 for null). -/
def GC_pthread_join_lookup (s : GCState) (thread : Nat) : Nat :=
  match GC_lookup_thread s thread with
  | none => 0
  | some r => r.addr

/-- The second critical section of `GC_pthread_join`, entered after the
underlying `pthread_join` returned. -/
def GC_pthread_join_delete (s : GCState) (thread thread_gc_id : Nat) : Option GCState :=
  GC_delete_gc_thread s thread thread_gc_id

/-! ## The state before and after initialisation -/

/-- The state of the file at program start: an empty table, the static
record `first_thread` (at address `a0`) zero as C initialises it, nothing
initialised. -/
def boot (a0 : Nat) : GCState where
  GC_threads := fun _ => []
  first_thread := ⟨a0, 0, 0, 0, 0, 0, 0⟩
  first_thread_used := false
  GC_thr_initialized := false
  GC_suspend_ack_sem := 0
  suspend_action := none
  restart_action := none

/-- Every library call of `GC_thr_init` succeeds. -/
def initOk : InitCalls := ⟨0, 0, 0, 0, 0, 0, 0⟩

/-! ## Threads and the kernel: the lifecycle as a transition system -/

/-- Where a created thread is in `GC_start_routine`. -/
inductive Phase where
  | created
  | running (me : Nat)
  | exited
  deriving DecidableEq, Repr

/-- Where the call of `GC_pthread_join` on a thread is: not made, past its
first critical section (holding `thread_gc_id`), or past the return of the
underlying `pthread_join`. -/
inductive JoinPhase where
  | notJoining
  | looked (thread_gc_id : Nat)
  | returned (thread_gc_id : Nat)
  deriving DecidableEq, Repr

/-- A thread created through `GC_pthread_create` whose record has not been
reaped: its kernel identity, the address of the record inserted for it,
its detach state and its progress. -/
structure Thread where
  id : Nat
  record : Nat
  detached : Bool
  phase : Phase
  joiner : JoinPhase
  deriving DecidableEq, Repr

/-- The kernel still holds the identity of the thread: it may be given to a
new thread only after the thread has exited and, when it is joinable, the
underlying `pthread_join` has returned. -/
def Thread.holdsId (t : Thread) : Bool :=
  match t.joiner with
  | JoinPhase.returned _ => false
  | _ => true

/-- The state of the file together with the threads created so far and not
yet reaped, and the identity of the primordial thread. -/
structure Sys where
  gc : GCState
  threads : List Thread
  mainId : Nat

/-- The steps of the lifecycle.  A thread is named by the address of its
record. -/
inductive Action where
  | create (self : Nat) (c : CreateCalls)
  | start (a : Nat)
  | finish (a : Nat) (result : Nat)
  | exit (a : Nat)
  | joinLookup (a : Nat)
  | joinReturn (a : Nat)
  | joinDelete (a : Nat)

/-- Replace the thread whose record is at `a` by `f` of it. -/
def setThread (a : Nat) (f : Thread → Thread) (ts : List Thread) : List Thread :=
  ts.map (fun t => if t.record = a then f t else t)

/-- Drop the thread whose record is at `a`. -/
def dropThread (a : Nat) (ts : List Thread) : List Thread :=
  ts.filter (fun t => t.record ≠ a)

/-- One step of the lifecycle; `none` when the step is not possible in the
state (or the code traps).

* `create`: a call of `GC_pthread_create`.  When the primitive succeeds, the
  identity it chose is not held by a thread (nor is it the primordial
  thread's), and the allocator returned a block that is not in the table.
* `start`: the new thread runs the first critical section of
  `GC_start_routine`.
* `finish`: the user routine returned; the thread runs the rest of
  `GC_start_routine`.  A detached thread is reaped by that.
* `exit`: the thread terminates inside its user routine (`pthread_exit` or
  cancellation); only the exit hook `GC_thread_exit_proc` runs.
* `joinLookup`, `joinReturn`, `joinDelete`: a call of `GC_pthread_join` on a
  joinable thread nobody joins yet: its first critical section, the return
  of the underlying `pthread_join` (the thread has exited), and its second
  critical section, which reaps the thread. -/
def step (sys : Sys) : Action → Option Sys
  | Action.create self c =>
    match GC_pthread_create sys.gc self c with
    | none => none
    | some res =>
      match res.new_thread with
      | none => some { sys with gc := res.state }
      | some id =>
        match (res.state.GC_threads (hv id)).head? with
        | none => none
        | some r =>
          if id ≠ sys.mainId ∧ (∀ t ∈ sys.threads, t.holdsId = true → t.id ≠ id) ∧
              r.addr ∉ (allRecords sys.gc).map (fun p => p.addr) ∧ r.addr ≠ 0 then
            some { sys with
              gc := res.state
              threads := (⟨id, r.addr,
                decide (c.attr.getD PTHREAD_CREATE_JOINABLE = PTHREAD_CREATE_DETACHED),
                Phase.created, JoinPhase.notJoining⟩ :: sys.threads) }
          else none
  | Action.start a =>
    match sys.threads.find? (fun t => t.record = a) with
    | none => none
    | some t =>
      if t.phase = Phase.created then
        let me := GC_start_routine_lookup sys.gc t.id
        some { sys with
          threads := (setThread a (fun t => { t with phase := Phase.running me }) sys.threads) }
      else none
  | Action.finish a result =>
    match sys.threads.find? (fun t => t.record = a) with
    | none => none
    | some t =>
      match t.phase with
      | Phase.running me =>
        match GC_start_routine_finish sys.gc t.id me result with
        | none => none
        | some gc1 =>
          some { sys with
            gc := gc1
            threads := (if t.detached then dropThread a sys.threads
              else setThread a (fun t => { t with phase := Phase.exited }) sys.threads) }
      | _ => none
  | Action.exit a =>
    match sys.threads.find? (fun t => t.record = a) with
    | none => none
    | some t =>
      match t.phase with
      | Phase.running _ =>
        match GC_thread_exit_proc sys.gc t.id with
        | none => none
        | some gc1 =>
          some { sys with
            gc := gc1
            threads := (if t.detached then dropThread a sys.threads
              else setThread a (fun t => { t with phase := Phase.exited }) sys.threads) }
      | _ => none
  | Action.joinLookup a =>
    match sys.threads.find? (fun t => t.record = a) with
    | none => none
    | some t =>
      if t.detached = false ∧ t.joiner = JoinPhase.notJoining then
        let g := GC_pthread_join_lookup sys.gc t.id
        some { sys with
          threads := (setThread a (fun t => { t with joiner := JoinPhase.looked g }) sys.threads) }
      else none
  | Action.joinReturn a =>
    match sys.threads.find? (fun t => t.record = a) with
    | none => none
    | some t =>
      match t.phase, t.joiner with
      | Phase.exited, JoinPhase.looked g =>
        some { sys with
          threads := (setThread a (fun t => { t with joiner := JoinPhase.returned g }) sys.threads) }
      | _, _ => none
  | Action.joinDelete a =>
    match sys.threads.find? (fun t => t.record = a) with
    | none => none
    | some t =>
      match t.joiner with
      | JoinPhase.returned g =>
        match GC_pthread_join_delete sys.gc t.id g with
        | none => none
        | some gc1 => some { sys with gc := gc1, threads := dropThread a sys.threads }
      | _ => none

/-- Run a sequence of steps. -/
def run (sys : Sys) : List Action → Option Sys
  | [] => some sys
  | a :: rest =>
    match step sys a with
    | none => none
    | some sys1 => run sys1 rest

/-- The system right after `GC_thr_init` ran in the primordial thread
`mainId` at program start. -/
def afterInit (a0 mainId sp : Nat) : Option Sys :=
  (GC_thr_init (boot a0) mainId initOk none sp).map (fun gc => ⟨gc, [], mainId⟩)

/-- The states the lifecycle reaches after `GC_thr_init`. -/
def Reachable (sys : Sys) : Prop :=
  ∃ a0 mainId sp sys0 acts, a0 ≠ 0 ∧ afterInit a0 mainId sp = some sys0 ∧
    run sys0 acts = some sys

/-! ## The invariant of the lifecycle -/

/-- What the lifecycle needs of a record: its address, its id and its
`DETACHED` bit. -/
structure Key where
  addr : Nat
  id : Nat
  det : Bool
  deriving DecidableEq, Repr

/-- The key of a record. -/
def key (r : GC_Thread_Rep) : Key := ⟨r.addr, r.id, hasFlag r DETACHED⟩

/-- The key of the record of a thread. -/
def Thread.key (t : Thread) : Key := ⟨t.record, t.id, t.detached⟩

/-- The keys of the chains of the table. -/
def keyTable (s : GCState) : Nat → List Key :=
  fun i => (s.GC_threads i).map key

/-- The invariant that ties the table (its keys `kt`) to the threads `ts`
that are created and not reaped, `mainId` being the primordial thread. -/
structure KInv (kt : Nat → List Key) (ts : List Thread) (mainId : Nat) : Prop where
  wf : ∀ i, ∀ k ∈ kt i, hv k.id = i
  nodupB : ∀ i, ((kt i).map Key.addr).Nodup
  owner : ∀ i, ∀ k ∈ kt i,
    (k.id = mainId ∧ ∀ t ∈ ts, t.record ≠ k.addr) ∨ (∃ t ∈ ts, t.key = k)
  nodupT : (ts.map Thread.record).Nodup
  notMain : ∀ t ∈ ts, t.id ≠ mainId
  own : ∀ t ∈ ts, t.key ∈ kt (hv t.id)
  head : ∀ t ∈ ts, t.holdsId = true →
    (kt (hv t.id)).find? (fun k => decide (k.id = t.id)) = some t.key
  me : ∀ t ∈ ts, ∀ m, t.phase = Phase.running m → m = t.record
  cached : ∀ t ∈ ts, ∀ g,
    t.joiner = JoinPhase.looked g ∨ t.joiner = JoinPhase.returned g → g = t.record
  detNoJoin : ∀ t ∈ ts, t.detached = true → t.joiner = JoinPhase.notJoining
  retExited : ∀ t ∈ ts, ∀ g, t.joiner = JoinPhase.returned g → t.phase = Phase.exited
  idUnique : ∀ t1 ∈ ts, ∀ t2 ∈ ts, t1.holdsId = true → t2.holdsId = true →
    t1.id = t2.id → t1.record = t2.record

/-- The invariant of the lifecycle on a state. -/
def SysInv (sys : Sys) : Prop :=
  sys.gc.GC_thr_initialized = true ∧ sys.gc.first_thread_used = true ∧
    KInv (keyTable sys.gc) sys.threads sys.mainId

/-! ## Allocation lock -/

/-- The constant `low_spin_max`. -/
def low_spin_max : Nat := 30

/-- The constant `high_spin_max`. -/
def high_spin_max : Nat := 1000

/-- The shared variables `GC_lock` reads and writes; `spin_max` and
`last_spins` are its two `static` variables. -/
structure LockShared where
  GC_allocate_lock : Nat
  GC_collecting : Bool
  spin_max : Nat
  last_spins : Nat
  deriving DecidableEq, Repr

/-- Modelled from the spec: `GC_test_and_set` is declared outside the file;
the spec lists it as the atomic `test_and_set(word*) -> bool`.  It returns
whether the word was set and leaves it set, in one step. -/
def GC_test_and_set (w : Nat) : Bool × Nat := (w != 0, 1)

/-- Modelled from the spec: `unlock()` is the macro `UNLOCK` of a header
outside the file; it releases the test-and-set lock by clearing the lock
word. -/
def GC_clear (_w : Nat) : Nat := 0

/-- The program points of a thread with respect to `GC_lock`: outside of
it, at one of its statements that touch shared variables (named by their
source line), or past its return and before the following `unlock()`. -/
inductive LockPC where
  | outside
  | L624
  | L627
  | L628
  | L629
  | L630
  | L631
  | L635
  | L642
  | L643
  | L648
  | L651
  | L654
  | holding
  deriving DecidableEq, Repr

/-- The program point and the locals `i`, `my_spin_max`, `my_last_spins` of
one thread. -/
structure LockLocal where
  pc : LockPC
  i : Nat
  my_spin_max : Nat
  my_last_spins : Nat
  deriving DecidableEq, Repr

/-- One statement of `GC_lock` executed by a thread whose locals are `l`,
on the shared variables `sh`.  `none` when the thread is not inside
`GC_lock`. -/
def GC_lock_step (sh : LockShared) (l : LockLocal) : Option (LockShared × LockLocal) :=
  match l.pc with
  | LockPC.outside => none
  | LockPC.holding => none
  | LockPC.L624 =>
    let r := GC_test_and_set sh.GC_allocate_lock
    some ({ sh with GC_allocate_lock := r.2 },
      { l with pc := if !r.1 then LockPC.holding else LockPC.L627 })
  | LockPC.L627 => some (sh, { l with my_spin_max := sh.spin_max, pc := LockPC.L628 })
  | LockPC.L628 => some (sh, { l with my_last_spins := sh.last_spins, i := 0, pc := LockPC.L629 })
  | LockPC.L629 => some (sh, { l with pc := if l.i < l.my_spin_max then LockPC.L630 else LockPC.L648 })
  | LockPC.L630 => some (sh, { l with pc := if sh.GC_collecting then LockPC.L651 else LockPC.L631 })
  | LockPC.L631 =>
    if l.i < l.my_last_spins / 2 ∨ sh.GC_allocate_lock ≠ 0 then
      some (sh, { l with i := l.i + 1, pc := LockPC.L629 })
    else some (sh, { l with pc := LockPC.L635 })
  | LockPC.L635 =>
    let r := GC_test_and_set sh.GC_allocate_lock
    some ({ sh with GC_allocate_lock := r.2 },
      if !r.1 then { l with pc := LockPC.L642 } else { l with i := l.i + 1, pc := LockPC.L629 })
  | LockPC.L642 => some ({ sh with last_spins := l.i }, { l with pc := LockPC.L643 })
  | LockPC.L643 => some ({ sh with spin_max := high_spin_max }, { l with pc := LockPC.holding })
  | LockPC.L648 => some ({ sh with spin_max := low_spin_max }, { l with pc := LockPC.L651 })
  | LockPC.L651 =>
    let r := GC_test_and_set sh.GC_allocate_lock
    some ({ sh with GC_allocate_lock := r.2 },
      { l with pc := if !r.1 then LockPC.holding else LockPC.L654 })
  | LockPC.L654 => some (sh, { l with pc := LockPC.L651 })

/-- The shared variables and the locals of every thread. -/
structure LockSys where
  sh : LockShared
  threads : Nat → LockLocal

/-- What can happen next: a thread calls `lock()`, a thread inside `lock()`
executes its next statement, a thread that returned from `lock()` calls
`unlock()`, or the hint `GC_collecting` is written. -/
inductive LockAction where
  | call (t : Nat)
  | step (t : Nat)
  | unlock (t : Nat)
  | collecting (b : Bool)
  deriving DecidableEq, Repr

/-- One step of an interleaving; `none` when the action is not possible. -/
def lockSysStep (sys : LockSys) : LockAction → Option LockSys
  | LockAction.call t =>
    if (sys.threads t).pc = LockPC.outside then
      some ⟨sys.sh, Function.update sys.threads t { sys.threads t with pc := LockPC.L624 }⟩
    else none
  | LockAction.step t =>
    match GC_lock_step sys.sh (sys.threads t) with
    | none => none
    | some r => some ⟨r.1, Function.update sys.threads t r.2⟩
  | LockAction.unlock t =>
    if (sys.threads t).pc = LockPC.holding then
      some ⟨{ sys.sh with GC_allocate_lock := GC_clear sys.sh.GC_allocate_lock },
        Function.update sys.threads t { sys.threads t with pc := LockPC.outside }⟩
    else none
  | LockAction.collecting b => some { sys with sh := { sys.sh with GC_collecting := b } }

/-- Run an interleaving. -/
def lockRun (sys : LockSys) : List LockAction → Option LockSys
  | [] => some sys
  | a :: rest =>
    match lockSysStep sys a with
    | none => none
    | some sys1 => lockRun sys1 rest

/-- The state at program start: the lock is free and no thread is in
`lock()`. -/
def lockInit : LockSys where
  sh := ⟨0, false, low_spin_max, 0⟩
  threads := fun _ => ⟨LockPC.outside, 0, 0, 0⟩

/-- The thread has acquired the lock word and not released it: it is past a
successful `GC_test_and_set` and before the end of its `unlock()`. -/
def ownsLock (l : LockLocal) : Bool :=
  match l.pc with
  | LockPC.L642 => true
  | LockPC.L643 => true
  | LockPC.holding => true
  | _ => false

/-! ## Histories of the thread table -/

/-- The operations of the thread table. -/
inductive TableOp where
  | new_thread (id : Nat) (malloc : Option GC_Thread_Rep)
  | delete_thread (id : Nat)
  | delete_specific (id : Nat) (gc_id : Nat)

/-- A table together with its history, as far as recency needs it:
`stamp a` is the number of the insertion that linked the record at address
`a`, `clock` the number of insertions made so far. -/
structure Stamped where
  gc : GCState
  stamp : Nat → Nat
  clock : Nat

/-- One operation on the table; `none` when the code traps.  The storage a
successful `GC_new_thread` links is not a record already in the table. -/
def tableStep (st : Stamped) : TableOp → Option Stamped
  | TableOp.new_thread id m =>
    match GC_new_thread st.gc id m with
    | (s1, none) => some { st with gc := s1 }
    | (s1, some r) =>
      if r.addr ∈ (allRecords st.gc).map (fun p => p.addr) then none
      else some ⟨s1, Function.update st.stamp r.addr (st.clock + 1), st.clock + 1⟩
  | TableOp.delete_thread id =>
    (GC_delete_thread st.gc id).map (fun s1 => { st with gc := s1 })
  | TableOp.delete_specific id gc_id =>
    (GC_delete_gc_thread st.gc id gc_id).map (fun s1 => { st with gc := s1 })

/-- Run a sequence of operations. -/
def tableRun (st : Stamped) : List TableOp → Option Stamped
  | [] => some st
  | op :: rest =>
    match tableStep st op with
    | none => none
    | some st1 => tableRun st1 rest

/-- The empty table at program start. -/
def emptyTable (a0 : Nat) : Stamped := ⟨boot a0, fun _ => 0, 0⟩

/-- The invariant of the histories: a record is in the bucket of its id, a
chain is ordered from the most recent insertion to the oldest, and no stamp
is ahead of the clock. -/
def TableInv (st : Stamped) : Prop :=
  (∀ i r, r ∈ st.gc.GC_threads i → hv r.id = i) ∧
    (∀ i, (st.gc.GC_threads i).Pairwise (fun x y => st.stamp y.addr < st.stamp x.addr)) ∧
    (∀ i r, r ∈ st.gc.GC_threads i → st.stamp r.addr ≤ st.clock)

/-- A history in which the identity 7 is given to a second thread while the
record of the first is still in the table, and the first record is then
removed. -/
def recycleOps : List TableOp :=
  [TableOp.new_thread 1 none, TableOp.new_thread 7 (some ⟨4096, 0, 0, 0, 0, 0, 0⟩),
    TableOp.new_thread 7 (some ⟨8192, 0, 0, 0, 0, 0, 0⟩), TableOp.delete_specific 7 4096]

/-- The table `recycleOps` leads to. -/
def recycleResult : Stamped :=
  (tableRun (emptyTable 1000) recycleOps).getD (emptyTable 1000)

/-! ## Predicates and concrete states used in the statements -/

/-- The records `GC_stop_world` and `GC_start_world` signal when called by
`my_thread`: the id is not the caller's and `FINISHED` is clear. -/
def isTarget (my_thread : Nat) (p : GC_Thread_Rep) : Bool :=
  decide (p.id ≠ my_thread) && !hasFlag p FINISHED

/-- A table with the primordial thread 1, a running thread 7 and a finished
thread 9. -/
def exampleTable : GCState :=
  setBucket (setBucket (setBucket (boot 1000) (hv 1) [⟨1000, 1, 6, 0, 5, 0, 0⟩])
    (hv 7) [⟨4096, 7, 0, 300, 200, 0, 0⟩]) (hv 9) [⟨8192, 9, 1, 0, 0, 0, 0⟩]

/-- A table in which the identity 7 has been reused: the record at 8192 is
the newer one, the record at 4096 belongs to a thread that has exited. -/
def recycledTable : GCState :=
  setBucket (boot 1000) (hv 7) [⟨8192, 7, 0, 0, 0, 0, 0⟩, ⟨4096, 7, 1, 0, 0, 0, 0⟩]

/-- A table like `recycledTable` in which the newer thread with the identity
7 is detached. -/
def detachedTable : GCState :=
  setBucket (boot 1000) (hv 7) [⟨8192, 7, 2, 0, 0, 0, 0⟩, ⟨4096, 7, 1, 0, 0, 0, 0⟩]

/-- The invariant of the lock: at most one thread owns the lock word, and
the word is set while a thread owns it. -/
def LockInv (sys : LockSys) : Prop :=
  (∀ t u, ownsLock (sys.threads t) = true → ownsLock (sys.threads u) = true → t = u) ∧
    (∀ t, ownsLock (sys.threads t) = true → sys.sh.GC_allocate_lock ≠ 0)

/-- An interleaving of two threads that call `lock()`. -/
def lockExampleActs : List LockAction :=
  [LockAction.call 0, LockAction.call 1, LockAction.step 0, LockAction.step 1,
    LockAction.step 1, LockAction.step 1]

/-- The state `lockExampleActs` leads to. -/
def lockExample : LockSys :=
  (lockRun lockInit lockExampleActs).getD lockInit

/-- The state `GC_thr_init` leaves when the primordial thread 1 runs it at
program start. -/
def bootedTable : GCState :=
  (GC_thr_init (boot 1000) 1 initOk none 5).getD (boot 1000)

/-- A lifecycle in which thread A (identity 7, record at 4096) is created,
runs and exits, a joiner passes the first critical section of
`GC_pthread_join` and the underlying `pthread_join` returns, and then
thread B is created and the kernel gives it the identity 7 again (its
record is at 8192), before the joiner has removed the record of A. -/
def recycleActs : List Action :=
  [Action.create 1 ⟨none, some 64, initOk, none, 0, (0, 7), some ⟨4096, 0, 0, 0, 0, 0, 0⟩⟩,
    Action.start 4096, Action.finish 4096 0, Action.joinLookup 4096, Action.joinReturn 4096,
    Action.create 1 ⟨none, some 64, initOk, none, 0, (0, 7), some ⟨8192, 0, 0, 0, 0, 0, 0⟩⟩]

/-- The state right after `GC_thr_init` in the primordial thread 1. -/
def bootedSys : Sys := ⟨bootedTable, [], 1⟩

/-- The state `recycleActs` leads to. -/
def recycleSys : Sys := (run bootedSys recycleActs).getD bootedSys

/-- The table `exampleTable` after initialisation. -/
def initialisedTable : GCState :=
  { exampleTable with GC_thr_initialized := true, first_thread_used := true }

/-! # Properties -/

set_option maxRecDepth 20000

/-! ## Buckets -/

theorem hv_lt (id : Nat) : hv id < THREAD_TABLE_SZ := by
  unfold hv THREAD_TABLE_SZ
  exact Nat.mod_lt _ (by decide)

theorem setBucket_same (s : GCState) (i : Nat) (l : List GC_Thread_Rep) :
    (setBucket s i l).GC_threads i = l := by
  simp [setBucket]

theorem setBucket_other (s : GCState) (i j : Nat) (l : List GC_Thread_Rep) (h : j ≠ i) :
    (setBucket s i l).GC_threads j = s.GC_threads j := by
  simp [setBucket, Function.update, h]

theorem mem_allRecords (s : GCState) (r : GC_Thread_Rep) :
    r ∈ allRecords s ↔ ∃ i, i < THREAD_TABLE_SZ ∧ r ∈ s.GC_threads i := by
  simp [allRecords, List.mem_flatMap, List.mem_range]

/-! ## `GC_new_thread` -/

theorem GC_new_thread_some (s : GCState) (id : Nat) (m : Option GC_Thread_Rep)
    (blk : GC_Thread_Rep)
    (hb : (if s.first_thread_used then m else some s.first_thread) = some blk) :
    GC_new_thread s id m =
      (setBucket { s with first_thread_used := true } (hv id)
        ({ blk with id := id } :: s.GC_threads (hv id)), some { blk with id := id }) := by
  unfold GC_new_thread
  by_cases hu : s.first_thread_used = true
  · simp only [hu, if_true] at hb ⊢
    subst hb
    cases s
    simp_all
  · simp only [hu] at hb ⊢
    simp only [Bool.false_eq_true, if_false] at hb ⊢
    cases hb
    rfl

theorem GC_new_thread_none (s : GCState) (id : Nat) (m : Option GC_Thread_Rep)
    (hb : (if s.first_thread_used then m else some s.first_thread) = none) :
    (GC_new_thread s id m).2 = none ∧
      (GC_new_thread s id m).1.GC_threads = s.GC_threads := by
  unfold GC_new_thread
  by_cases hu : s.first_thread_used = true
  · simp only [hu, if_true] at hb ⊢
    subst hb
    simp
  · simp only [hu] at hb
    simp at hb

theorem GC_new_thread_inv (s s1 : GCState) (id : Nat) (m : Option GC_Thread_Rep)
    (r : GC_Thread_Rep) (h : GC_new_thread s id m = (s1, some r)) :
    ∃ blk, (if s.first_thread_used then m else some s.first_thread) = some blk ∧
      r = { blk with id := id } ∧
      s1 = setBucket { s with first_thread_used := true } (hv id) (r :: s.GC_threads (hv id)) := by
  cases hb : (if s.first_thread_used then m else some s.first_thread) with
  | none =>
    have h2 := (GC_new_thread_none s id m hb).1
    rw [h] at h2
    simp at h2
  | some blk =>
    rw [GC_new_thread_some s id m blk hb] at h
    simp only [Prod.mk.injEq, Option.some.injEq] at h
    exact ⟨blk, rfl, h.2.symm, by rw [← h.1, h.2]⟩

/-- C10, as stated, fails: in the state `GC_thr_init` leaves at program
start, `GC_new_thread(7)` on a block the allocator returns with the
`FINISHED` bit set succeeds and returns a record with id 7 whose flags are
still 1, so `FINISHED` is not clear. -/
theorem GC_new_thread_flags_not_cleared :
    (GC_thr_init (boot 1000) 1 initOk none 5).map (fun s =>
      (GC_new_thread s 7 (some ⟨4096, 0, FINISHED, 0, 0, 0, 0⟩)).2.map
        (fun r => (r.id, r.flags, hasFlag r FINISHED))) = some (some (7, 1, true)) := by
  rfl

/-- C10, amended: when `GC_new_thread(id)` succeeds, the record it returns
is linked at the head of bucket `id mod THREAD_TABLE_SZ`, the other buckets
are unchanged, the record carries that id, and its flags (and its address)
are those of the storage it was given: the static record on the first call,
otherwise the block the allocator returned.  The function does not write
the flags. -/
theorem GC_new_thread_links_head (s s1 : GCState) (id : Nat) (m : Option GC_Thread_Rep)
    (r : GC_Thread_Rep) (h : GC_new_thread s id m = (s1, some r)) :
    s1.GC_threads (id % THREAD_TABLE_SZ) = r :: s.GC_threads (id % THREAD_TABLE_SZ) ∧
      (∀ i, i ≠ id % THREAD_TABLE_SZ → s1.GC_threads i = s.GC_threads i) ∧
      r.id = id ∧
      ∃ blk, (if s.first_thread_used then m else some s.first_thread) = some blk ∧
        r.flags = blk.flags ∧ r.addr = blk.addr := by
  obtain ⟨blk, hb, hr, hs⟩ := GC_new_thread_inv s s1 id m r h
  have e : id % THREAD_TABLE_SZ = hv id := rfl
  rw [e]
  refine ⟨?_, ?_, ?_, blk, hb, ?_, ?_⟩
  · rw [hs, setBucket_same]
  · intro i hi
    rw [hs, setBucket_other _ _ _ _ hi]
  · rw [hr]
  · rw [hr]
  · rw [hr]

/-- C10, amended, at a concrete input: the first call at program start links
the static record, whose flags C initialised to zero. -/
theorem GC_new_thread_links_head_witness :
    GC_new_thread (boot 1000) 5 none =
        (setBucket { boot 1000 with first_thread_used := true } (hv 5) [⟨1000, 5, 0, 0, 0, 0, 0⟩],
          some ⟨1000, 5, 0, 0, 0, 0, 0⟩) ∧
      (setBucket { boot 1000 with first_thread_used := true } (hv 5)
          [⟨1000, 5, 0, 0, 0, 0, 0⟩]).GC_threads (5 % THREAD_TABLE_SZ) =
        ⟨1000, 5, 0, 0, 0, 0, 0⟩ :: (boot 1000).GC_threads (5 % THREAD_TABLE_SZ) :=
  ⟨rfl, (GC_new_thread_links_head (boot 1000) _ 5 none ⟨1000, 5, 0, 0, 0, 0, 0⟩ rfl).1⟩

/-! ## `GC_delete_gc_thread` -/

theorem unlinkPtr_of_mem (r : GC_Thread_Rep) :
    ∀ l : List GC_Thread_Rep, r ∈ l → (l.map (fun p => p.addr)).Nodup →
      ∃ l1 l2, l = l1 ++ r :: l2 ∧ unlinkPtr r.addr l = some (l1 ++ l2) ∧
        (∀ p ∈ l1 ++ l2, p.addr ≠ r.addr) := by
  intro l
  induction l with
  | nil => intro h; simp at h
  | cons p rest ih =>
    intro hmem hnd
    rw [List.map_cons, List.nodup_cons] at hnd
    by_cases hp : p.addr = r.addr
    · have hpr : p = r := by
        rcases List.mem_cons.1 hmem with h | h
        · exact h.symm
        · exact absurd (List.mem_map.2 ⟨r, h, hp.symm⟩) hnd.1
      subst hpr
      refine ⟨[], rest, rfl, ?_, ?_⟩
      · simp [unlinkPtr]
      · intro q hq heq
        exact hnd.1 (List.mem_map.2 ⟨q, by simpa using hq, heq⟩)
    · have hr : r ∈ rest := by
        rcases List.mem_cons.1 hmem with h | h
        · exact absurd (by rw [h]) hp
        · exact h
      obtain ⟨l1, l2, h1, h2, h3⟩ := ih hr hnd.2
      refine ⟨p :: l1, l2, by rw [h1]; rfl, ?_, ?_⟩
      · simp [unlinkPtr, hp, h2]
      · intro q hq
        rw [List.cons_append] at hq
        rcases List.mem_cons.1 hq with h | h
        · rw [h]; exact hp
        · exact h3 q h

theorem find?_remove_middle {α : Type} (q : α → Bool) (l1 l2 : List α)
    (r b : α) (h : (l1 ++ r :: l2).find? q = some b) (hb : b ≠ r) :
    (l1 ++ l2).find? q = some b := by
  rw [List.find?_append] at h ⊢
  cases h1 : l1.find? q with
  | some x => rw [h1] at h; simpa using h
  | none =>
    rw [h1] at h
    simp only [Option.none_or] at h ⊢
    rw [List.find?_cons] at h
    cases hq : q r with
    | true => rw [hq] at h; simp at h; exact absurd h.symm hb
    | false => rw [hq] at h; exact h

/-- C3: if the chain of bucket `id mod THREAD_TABLE_SZ` contains the record
`r` (records of a chain have distinct addresses), `GC_delete_gc_thread(id, r)`
returns and removes exactly `r`: the chain was `l1 ++ r :: l2` and becomes
`l1 ++ l2`, which no longer holds a record at the address of `r`; every
other bucket is unchanged; and any lookup that returned a record other than
`r` (such as a newer record with the same id) still returns that record. -/
theorem GC_delete_gc_thread_removes_exactly (s : GCState) (id : Nat) (r : GC_Thread_Rep)
    (hr : r ∈ s.GC_threads (hv id))
    (hnd : ((s.GC_threads (hv id)).map (fun p => p.addr)).Nodup) :
    ∃ s1 l1 l2, GC_delete_gc_thread s id r.addr = some s1 ∧
      s.GC_threads (hv id) = l1 ++ r :: l2 ∧
      s1.GC_threads (hv id) = l1 ++ l2 ∧
      (∀ p ∈ l1 ++ l2, p.addr ≠ r.addr) ∧
      (∀ i, i ≠ hv id → s1.GC_threads i = s.GC_threads i) ∧
      (∀ id1 b, GC_lookup_thread s id1 = some b → b ≠ r →
        GC_lookup_thread s1 id1 = some b) := by
  obtain ⟨l1, l2, h1, h2, h3⟩ := unlinkPtr_of_mem r _ hr hnd
  refine ⟨setBucket s (hv id) (l1 ++ l2), l1, l2, ?_, h1, setBucket_same _ _ _, h3,
    fun i hi => setBucket_other _ _ _ _ hi, ?_⟩
  · simp [GC_delete_gc_thread, h2]
  · intro id1 b hb hne
    unfold GC_lookup_thread at hb ⊢
    by_cases hi : hv id1 = hv id
    · rw [hi] at hb ⊢
      rw [setBucket_same]
      rw [h1] at hb
      exact find?_remove_middle _ l1 l2 r b hb hne
    · rw [setBucket_other _ _ _ _ hi]
      exact hb

/-- C3 at a concrete input: in `recycledTable` the record at 4096 is removed
and the lookup of 7 still returns the newer record at 8192. -/
theorem GC_delete_gc_thread_removes_exactly_witness :
    (⟨4096, 7, 1, 0, 0, 0, 0⟩ : GC_Thread_Rep) ∈ recycledTable.GC_threads (hv 7) ∧
      (∃ s1 l1 l2, GC_delete_gc_thread recycledTable 7
          (⟨4096, 7, 1, 0, 0, 0, 0⟩ : GC_Thread_Rep).addr = some s1 ∧
        recycledTable.GC_threads (hv 7) = l1 ++ ⟨4096, 7, 1, 0, 0, 0, 0⟩ :: l2 ∧
        s1.GC_threads (hv 7) = l1 ++ l2 ∧
        (∀ p ∈ l1 ++ l2, p.addr ≠ (⟨4096, 7, 1, 0, 0, 0, 0⟩ : GC_Thread_Rep).addr) ∧
        (∀ i, i ≠ hv 7 → s1.GC_threads i = recycledTable.GC_threads i) ∧
        (∀ id1 b, GC_lookup_thread recycledTable id1 = some b → b ≠ ⟨4096, 7, 1, 0, 0, 0, 0⟩ →
          GC_lookup_thread s1 id1 = some b)) ∧
      (GC_delete_gc_thread recycledTable 7 4096).bind (fun s1 => GC_lookup_thread s1 7) =
        some ⟨8192, 7, 0, 0, 0, 0, 0⟩ :=
  ⟨by decide,
    GC_delete_gc_thread_removes_exactly recycledTable 7 ⟨4096, 7, 1, 0, 0, 0, 0⟩
      (by decide) (by decide),
    by rfl⟩

/-! ## `GC_stop_world` -/

theorem countP_range_succ_shift (kill : Nat → Int) (k len : Nat) :
    (List.range (len + 1)).countP (fun j => decide (kill (k + j) = 0)) =
      (if kill k = 0 then 1 else 0) +
        (List.range len).countP (fun j => decide (kill (k + 1 + j) = 0)) := by
  rw [List.range_succ_eq_map, List.countP_cons, List.countP_map]
  have : ((fun j => decide (kill (k + j) = 0)) ∘ Nat.succ) =
      (fun j => decide (kill (k + 1 + j) = 0)) := by
    funext j
    simp only [Function.comp, Nat.succ_eq_add_one]
    rw [show k + (j + 1) = k + 1 + j by omega]
  rw [this]
  simp only [Nat.add_zero, decide_eq_true_eq]
  omega

theorem signalWalk_spec (my_thread sig : Nat) (kill : Nat → Int) :
    ∀ (ps : List GC_Thread_Rep) (k : Nat) (n : Int),
      (∀ j, j < (ps.filter (isTarget my_thread)).length →
        kill (k + j) = 0 ∨ kill (k + j) = ESRCH) →
      signalWalk my_thread sig kill ps k n =
        some ((ps.filter (isTarget my_thread)).map (fun p => Event.pthread_kill p.id sig),
          n + ((List.range (ps.filter (isTarget my_thread)).length).countP
            (fun j => decide (kill (k + j) = 0)) : Nat)) := by
  intro ps
  induction ps with
  | nil => intro k n _; simp [signalWalk]
  | cons p rest ih =>
    intro k n hk
    by_cases hid : p.id = my_thread
    · have ht : isTarget my_thread p = false := by simp [isTarget, hid]
      rw [List.filter_cons_of_neg (by simp [ht])] at hk ⊢
      rw [signalWalk]
      simp only [hid, ne_eq, not_true_eq_false, if_false]
      exact ih k n hk
    · by_cases hf : hasFlag p FINISHED = true
      · have ht : isTarget my_thread p = false := by simp [isTarget, hf]
        rw [List.filter_cons_of_neg (by simp [ht])] at hk ⊢
        rw [signalWalk]
        simp only [hid, ne_eq, not_false_eq_true, if_true, hf]
        exact ih k n hk
      · have ht : isTarget my_thread p = true := by simp [isTarget, hid, hf]
        rw [List.filter_cons_of_pos ht] at hk ⊢
        have h0 := hk 0 (by simp)
        have hrest : ∀ j, j < (rest.filter (isTarget my_thread)).length →
            kill (k + 1 + j) = 0 ∨ kill (k + 1 + j) = ESRCH := by
          intro j hj
          have := hk (j + 1) (by simpa using hj)
          rwa [show k + (j + 1) = k + 1 + j by omega] at this
        rw [signalWalk]
        simp only [hid, ne_eq, not_false_eq_true, if_true, hf, Bool.false_eq_true, if_false]
        rw [List.length_cons, countP_range_succ_shift]
        rw [Nat.add_zero] at h0
        rcases h0 with h0 | h0
        · have hne : kill k ≠ ESRCH := by rw [h0]; decide
          rw [if_neg hne, if_pos h0, if_pos h0]
          rw [ih (k + 1) (n + 1) hrest]
          simp only [Option.map_some', List.map_cons, Option.some.injEq, Prod.mk.injEq, true_and]
          push_cast
          ring
        · have hne : kill k ≠ 0 := by rw [h0]; decide
          rw [if_pos h0, if_neg hne]
          rw [ih (k + 1) (n + 1 - 1) hrest]
          simp only [Option.map_some', List.map_cons, Option.some.injEq, Prod.mk.injEq, true_and]
          push_cast
          ring


/-- C1: when no `pthread_kill` that `GC_stop_world` makes returns anything
but 0 or `ESRCH`, it returns, and what it does is: one `sched_yield`, then
one `pthread_kill(p -> id, SIG_SUSPEND)` for each record `p` of the table
whose id is not the caller's and whose `FINISHED` flag is clear (in table
order, and nothing for any other record), then as many `sem_wait` as sends
returned 0.  On a table all of whose records are the caller's it sends
nothing and waits zero times. -/
theorem GC_stop_world_sends_and_waits (s : GCState) (my_thread : Nat) (kill : Nat → Int)
    (volatile_counter : Int)
    (hk : ∀ j, j < ((allRecords s).filter (isTarget my_thread)).length →
      kill j = 0 ∨ kill j = ESRCH) :
    GC_stop_world s my_thread kill volatile_counter =
        some (Event.sched_yield ::
          ((allRecords s).filter (isTarget my_thread)).map
              (fun p => Event.pthread_kill p.id SIG_SUSPEND) ++
            List.replicate
              ((List.range ((allRecords s).filter (isTarget my_thread)).length).countP
                (fun j => decide (kill j = 0)))
              Event.sem_wait,
          volatile_counter) ∧
      ((∀ p ∈ allRecords s, p.id = my_thread) →
        GC_stop_world s my_thread kill volatile_counter =
          some ([Event.sched_yield], volatile_counter)) := by
  have hk0 : ∀ j, j < ((allRecords s).filter (isTarget my_thread)).length →
      kill (0 + j) = 0 ∨ kill (0 + j) = ESRCH := by
    intro j hj
    rw [Nat.zero_add]
    exact hk j hj
  have hw := signalWalk_spec my_thread SIG_SUSPEND kill (allRecords s) 0 0 hk0
  simp only [Nat.zero_add, Int.zero_add] at hw
  have hmain : GC_stop_world s my_thread kill volatile_counter =
      some (Event.sched_yield ::
        ((allRecords s).filter (isTarget my_thread)).map
            (fun p => Event.pthread_kill p.id SIG_SUSPEND) ++
          List.replicate
            ((List.range ((allRecords s).filter (isTarget my_thread)).length).countP
              (fun j => decide (kill j = 0)))
            Event.sem_wait,
        volatile_counter) := by
    unfold GC_stop_world
    rw [hw]
    simp
  refine ⟨hmain, ?_⟩
  intro hall
  have hnil : (allRecords s).filter (isTarget my_thread) = [] := by
    rw [List.filter_eq_nil_iff]
    intro p hp
    simp [isTarget, hall p hp]
  rw [hmain, hnil]
  rfl

/-- C1 at a concrete input: in `exampleTable` the caller 1 signals the
running thread 7 only, and waits once. -/
theorem GC_stop_world_sends_and_waits_witness :
    (∀ j, j < ((allRecords exampleTable).filter (isTarget 1)).length →
        (fun _ => (0 : Int)) j = 0 ∨ (fun _ => (0 : Int)) j = ESRCH) ∧
      GC_stop_world exampleTable 1 (fun _ => 0) 0 =
        some ([Event.sched_yield, Event.pthread_kill 7 SIG_SUSPEND, Event.sem_wait], 0) := by
  have hk : ∀ j, j < ((allRecords exampleTable).filter (isTarget 1)).length →
      (fun _ => (0 : Int)) j = 0 ∨ (fun _ => (0 : Int)) j = ESRCH := fun _ _ => Or.inl rfl
  refine ⟨hk, ?_⟩
  rw [(GC_stop_world_sends_and_waits exampleTable 1 (fun _ => 0) 0 hk).1]
  rfl

/-! ## `GC_push_all_stacks` -/

theorem pushWalk_eq (e : StackEnv) (me : Nat) :
    ∀ ps : List GC_Thread_Rep, pushWalk e me ps =
      (ps.filter (fun p => !hasFlag p FINISHED)).map (fun p =>
        (if p.id = me then e.GC_approx_sp else p.stack_ptr,
          if hasFlag p MAIN_THREAD then e.GC_stackbottom
          else if p.id = me then GC_linux_thread_top_of_stack e.wordBits e.GC_approx_sp
          else p.stack_end)) := by
  intro ps
  induction ps with
  | nil => rfl
  | cons p rest ih =>
    by_cases hf : hasFlag p FINISHED = true
    · rw [pushWalk, List.filter_cons_of_neg (by simp [hf])]
      simp only [stackRange, hf, if_true]
      exact ih
    · rw [pushWalk, List.filter_cons_of_pos (by simpa using hf)]
      simp only [stackRange, hf, Bool.false_eq_true, if_false, List.map_cons]
      rw [ih]
      by_cases hm : p.flags &&& MAIN_THREAD = 0
      · simp [hasFlag, hm]
      · simp [hasFlag, hm]

/-- C4: on an initialised table, `GC_push_all_stacks` returns, leaves the
state as it is, and calls `GC_push_all_stack(lo, hi)` exactly once for each
record whose `FINISHED` flag is clear (in table order) and for no other
record, with `lo` the value of `GC_approx_sp()` for a record with the
caller's id and the record's `stack_ptr` otherwise, and `hi` equal to
`GC_stackbottom` when `MAIN_THREAD` is set, otherwise
`GC_linux_thread_top_of_stack()` for a record with the caller's id and the
record's `stack_end` for a peer. -/
theorem GC_push_all_stacks_ranges (s : GCState) (me : Nat) (e : StackEnv) (c : InitCalls)
    (m : Option GC_Thread_Rep) (sp : Nat) (hinit : s.GC_thr_initialized = true) :
    GC_push_all_stacks s me e c m sp =
      some (s, ((allRecords s).filter (fun p => !hasFlag p FINISHED)).map (fun p =>
        (if p.id = me then e.GC_approx_sp else p.stack_ptr,
          if hasFlag p MAIN_THREAD then e.GC_stackbottom
          else if p.id = me then GC_linux_thread_top_of_stack e.wordBits e.GC_approx_sp
          else p.stack_end))) := by
  unfold GC_push_all_stacks lazyInit
  rw [if_pos hinit]
  simp only
  rw [pushWalk_eq]

/-- C4 at a concrete input: in `exampleTable`, once initialised, the caller 1
(the primordial thread) pushes its own stack up to `GC_stackbottom` and the
stack of the running thread 7 as saved in its record; the finished thread 9
is skipped. -/
theorem GC_push_all_stacks_ranges_witness :
    ({ exampleTable with GC_thr_initialized := true } : GCState).GC_thr_initialized = true ∧
      (GC_push_all_stacks { exampleTable with GC_thr_initialized := true } 1
          ⟨32, 100, 900⟩ initOk none 0).map (fun r => r.2) =
        some [(100, 900), (200, 300)] := by
  refine ⟨rfl, ?_⟩
  rw [GC_push_all_stacks_ranges _ 1 ⟨32, 100, 900⟩ initOk none 0 rfl]
  rfl

/-! ## `GC_pthread_sigmask` -/

theorem GC_pthread_sigmask_step (mask : Sigset) (how : Int) (set : Option Sigset)
    (oset : Bool) (h : SIG_SUSPEND ∉ mask) :
    SIG_SUSPEND ∉ (GC_pthread_sigmask mask how set oset).2.1 := by
  unfold GC_pthread_sigmask
  cases set with
  | none => simpa [fudgedSet, pthread_sigmask] using h
  | some st =>
    by_cases h1 : how = SIG_BLOCK
    · simp [fudgedSet, pthread_sigmask, h1, h]
    · by_cases h2 : how = SIG_SETMASK
      · have h3 : ¬ SIG_SETMASK = SIG_BLOCK := by decide
        have h4 : ¬ SIG_SETMASK = SIG_UNBLOCK := by decide
        simp [fudgedSet, pthread_sigmask, h2, h3, h4]
      · by_cases h5 : how = SIG_UNBLOCK
        · have h6 : ¬ SIG_UNBLOCK = SIG_BLOCK := by decide
          have h7 : ¬ SIG_UNBLOCK = SIG_SETMASK := by decide
          simp [fudgedSet, pthread_sigmask, h5, h6, h7, h]
        · simp [fudgedSet, pthread_sigmask, h1, h2, h5, h]

/-- C5: if `SIG_SUSPEND` is not in the signal mask of a thread, it is not in
its mask after any sequence of calls of `GC_pthread_sigmask` (any `how`, any
`set` including null and sets that contain `SIG_SUSPEND`, any `oset`); and
for a non-null `set` and `how` equal to `SIG_BLOCK` or `SIG_SETMASK` the call
is the call of the underlying `pthread_sigmask` on the client's set with
`SIG_SUSPEND` removed and the membership of every other signal unchanged. -/
theorem GC_pthread_sigmask_never_blocks_suspend (mask : Sigset) (calls : List SigmaskCall)
    (h : SIG_SUSPEND ∉ mask) :
    SIG_SUSPEND ∉ sigmaskRun mask calls ∧
      ∀ (m : Sigset) (how : Int) (st : Sigset) (oset : Bool),
        how = SIG_BLOCK ∨ how = SIG_SETMASK →
        ∃ fudged, fudgedSet how (some st) = some fudged ∧
          GC_pthread_sigmask m how (some st) oset = pthread_sigmask m how (some fudged) oset ∧
          SIG_SUSPEND ∉ fudged ∧
          ∀ sig, sig ≠ SIG_SUSPEND → (sig ∈ fudged ↔ sig ∈ st) := by
  constructor
  · induction calls generalizing mask with
    | nil => exact h
    | cons c rest ih =>
      rw [sigmaskRun]
      exact ih _ (GC_pthread_sigmask_step mask c.how c.set c.oset h)
  · intro m how st oset hhow
    refine ⟨st.erase SIG_SUSPEND, ?_, ?_, ?_, ?_⟩
    · simp [fudgedSet, hhow]
    · simp [GC_pthread_sigmask, fudgedSet, hhow]
    · simp
    · intro sig hsig
      simp [hsig]

/-- C5 at a concrete input: a thread with an empty mask blocks
`{SIGINT, SIG_SUSPEND}`, then sets the mask to `{SIG_SUSPEND}`; the mask it
ends with does not contain `SIG_SUSPEND`. -/
theorem GC_pthread_sigmask_never_blocks_suspend_witness :
    SIG_SUSPEND ∉ (∅ : Sigset) ∧
      SIG_SUSPEND ∉ sigmaskRun ∅
        [⟨SIG_BLOCK, some {2, SIG_SUSPEND}, false⟩, ⟨SIG_SETMASK, some {SIG_SUSPEND}, true⟩] ∧
      sigmaskRun ∅ [⟨SIG_BLOCK, some {2, SIG_SUSPEND}, false⟩] = {2} :=
  ⟨by decide,
    (GC_pthread_sigmask_never_blocks_suspend ∅
      [⟨SIG_BLOCK, some {2, SIG_SUSPEND}, false⟩, ⟨SIG_SETMASK, some {SIG_SUSPEND}, true⟩]
      (by decide)).1,
    by decide⟩

/-! ## `GC_thr_init` -/

theorem flatMap_range_update_nil (l : List GC_Thread_Rep) (i : Nat) :
    ∀ n, (List.range n).flatMap (Function.update (fun _ => ([] : List GC_Thread_Rep)) i l) =
      if i < n then l else [] := by
  intro n
  induction n with
  | zero => simp
  | succ n ih =>
    rw [List.range_succ, List.flatMap_append, ih]
    by_cases h1 : i < n
    · have h2 : n ≠ i := by omega
      have h3 : i < n + 1 := by omega
      simp [h1, h3, Function.update, h2]
    · by_cases h2 : i = n
      · subst h2
        simp [Function.update]
      · have h3 : ¬ i < n + 1 := by omega
        have h4 : n ≠ i := fun h => h2 h.symm
        simp [h1, h3, Function.update, h4]

theorem GC_thr_init_boot (a0 self sp : Nat) (c : InitCalls) (m : Option GC_Thread_Rep)
    (s1 : GCState) (h : GC_thr_init (boot a0) self c m sp = some s1) :
    s1.GC_threads = Function.update (fun _ => [])
        (hv self) [⟨a0, self, DETACHED ||| MAIN_THREAD, 0, sp, 0, 0⟩] ∧
      s1.GC_thr_initialized = true ∧ s1.first_thread_used = true := by
  unfold GC_thr_init at h
  by_cases h1 : c.sem_init ≠ 0
  · rw [if_pos h1] at h; cases h
  rw [if_neg h1] at h
  by_cases h2 : c.sigfillset_1 ≠ 0
  · rw [if_pos h2] at h; cases h
  rw [if_neg h2] at h
  by_cases h3 : c.sigdelset_1 ≠ 0
  · rw [if_pos h3] at h; cases h
  rw [if_neg h3] at h
  by_cases h4 : c.sigaction_1 ≠ 0
  · rw [if_pos h4] at h; cases h
  rw [if_neg h4] at h
  by_cases h5 : c.sigfillset_2 ≠ 0
  · rw [if_pos h5] at h; cases h
  rw [if_neg h5] at h
  by_cases h6 : c.sigdelset_2 ≠ 0
  · rw [if_pos h6] at h; cases h
  rw [if_neg h6] at h
  by_cases h7 : c.sigaction_2 ≠ 0
  · rw [if_pos h7] at h; cases h
  rw [if_neg h7] at h
  simp only [GC_new_thread, boot, Bool.false_eq_true, if_false, setBucket,
    Function.update_same, List.tail_cons, Option.some.injEq] at h
  subst h
  simp [Function.update_idem]

/-- C9, as stated, fails: at program start a first `GC_thr_init` leaves one
record, and a second one (the allocator returning a block at 4096) leaves
two records for the calling thread. -/
theorem GC_thr_init_twice_adds_record :
    (GC_thr_init (boot 1000) 1 initOk none 5).map allRecords =
        some [⟨1000, 1, 6, 0, 5, 0, 0⟩] ∧
      ((GC_thr_init (boot 1000) 1 initOk none 5).bind (fun s1 =>
          GC_thr_init s1 1 initOk (some ⟨4096, 0, 0, 0, 0, 0, 0⟩) 5)).map allRecords =
        some [⟨4096, 1, 6, 0, 5, 0, 0⟩, ⟨1000, 1, 6, 0, 5, 0, 0⟩] := by
  constructor <;> rfl

/-- C9, amended: a first `GC_thr_init` at program start that returns leaves
a table with a single record, for the calling thread, flagged
`DETACHED | MAIN_THREAD` (made of the static record, `stack_ptr` set), and
sets `GC_thr_initialized`; from then on the guarded call
`if (!GC_thr_initialized) GC_thr_init();`, which is how the file calls it,
leaves the state exactly as it is. -/
theorem GC_thr_init_guarded_idempotent (a0 self sp : Nat) (c : InitCalls)
    (m : Option GC_Thread_Rep) (s1 : GCState)
    (h : GC_thr_init (boot a0) self c m sp = some s1) :
    allRecords s1 = [⟨a0, self, DETACHED ||| MAIN_THREAD, 0, sp, 0, 0⟩] ∧
      s1.GC_thr_initialized = true ∧
      ∀ (self1 : Nat) (c1 : InitCalls) (m1 : Option GC_Thread_Rep) (sp1 : Nat),
        lazyInit s1 self1 c1 m1 sp1 = some s1 := by
  obtain ⟨ht, hi, _⟩ := GC_thr_init_boot a0 self sp c m s1 h
  refine ⟨?_, hi, ?_⟩
  · unfold allRecords
    rw [ht, flatMap_range_update_nil, if_pos (hv_lt self)]
  · intro self1 c1 m1 sp1
    unfold lazyInit
    rw [if_pos hi]

/-- C9, amended, at a concrete input. -/
theorem GC_thr_init_guarded_idempotent_witness :
    GC_thr_init (boot 1000) 1 initOk none 5 = some bootedTable ∧
      allRecords bootedTable = [⟨1000, 1, DETACHED ||| MAIN_THREAD, 0, 5, 0, 0⟩] ∧
      bootedTable.GC_thr_initialized = true ∧
      ∀ (self1 : Nat) (c1 : InitCalls) (m1 : Option GC_Thread_Rep) (sp1 : Nat),
        lazyInit bootedTable self1 c1 m1 sp1 = some bootedTable :=
  ⟨rfl, GC_thr_init_guarded_idempotent 1000 1 5 initOk none bootedTable rfl⟩

/-! ## `GC_pthread_create` -/

/-- C7, as stated, fails: with the `start_info` allocated, `GC_pthread_create`
does not return at all when the `sem_init` of the lazy `GC_thr_init` fails
(`ABORT`), nor when the primitive succeeds and `GC_new_thread` returns null
(the null pointer is dereferenced). -/
theorem GC_pthread_create_does_not_return :
    (GC_pthread_create (boot 1000) 1
        ⟨none, some 64, ⟨-1, 0, 0, 0, 0, 0, 0⟩, none, 5, (0, 7), some ⟨4096, 0, 0, 0, 0, 0, 0⟩⟩).isNone
        = true ∧
      (GC_pthread_create (boot 1000) 1
        ⟨none, some 64, initOk, none, 5, (0, 7), none⟩).isNone = true := by
  constructor <;> rfl

/-- C7, amended.  When the allocation of the `start_info` fails,
`GC_pthread_create` returns `ENOMEM`, makes no call of the underlying
`pthread_create` and leaves the state as it is.  Otherwise, when the lazy
initialisation returns (it leaves the state `s1`, which is the state itself
when `GC_thr_initialized` is set), the primitive is called once; when its
result is an error, that result is returned and the table is that of `s1`:
no record is added for a new thread; when its result is 0 and the storage
for the record is there, 0 is returned and the record of the new thread is
linked at the head of its bucket, stamped with the flags of the detach
state. -/
theorem GC_pthread_create_results (s : GCState) (self : Nat) (c : CreateCalls) :
    (c.GC_malloc = none → GC_pthread_create s self c = some ⟨s, ENOMEM, [], none⟩) ∧
    (s.GC_thr_initialized = true → lazyInit s self c.init c.initMalloc c.sp = some s) ∧
    (∀ si s1, c.GC_malloc = some si → lazyInit s self c.init c.initMalloc c.sp = some s1 →
      (c.pthread_create.1 ≠ 0 →
        GC_pthread_create s self c = some ⟨s1, c.pthread_create.1, [si], none⟩) ∧
      (c.pthread_create.1 = 0 → ∀ blk,
        (if s1.first_thread_used then c.malloc else some s1.first_thread) = some blk →
        ∃ res, GC_pthread_create s self c = some res ∧
          res.result = c.pthread_create.1 ∧ res.primitiveCalls = [si] ∧
          res.new_thread = some c.pthread_create.2 ∧
          res.state.GC_threads (hv c.pthread_create.2) =
            { blk with
                id := c.pthread_create.2
                flags := (if c.attr = some PTHREAD_CREATE_DETACHED then DETACHED else 0)
                stack_ptr := 0
                stack_end := 0 } :: s1.GC_threads (hv c.pthread_create.2) ∧
          ∀ i, i ≠ hv c.pthread_create.2 → res.state.GC_threads i = s1.GC_threads i)) := by
  refine ⟨?_, ?_, ?_⟩
  · intro h
    simp [GC_pthread_create, h]
  · intro h
    simp [lazyInit, h]
  · intro si s1 hsi hl
    constructor
    · intro hne
      have hne2 : ¬ (0 = c.pthread_create.1) := fun e => hne e.symm
      simp [GC_pthread_create, hsi, hl, hne2]
    · intro h0 blk hb
      have hnew := GC_new_thread_some s1 c.pthread_create.2 c.malloc blk hb
      have hflags : (if PTHREAD_CREATE_DETACHED = c.attr.getD PTHREAD_CREATE_JOINABLE
          then 0 ||| DETACHED else 0) =
          (if c.attr = some PTHREAD_CREATE_DETACHED then DETACHED else 0) := by
        cases hattr : c.attr with
        | none => simp [PTHREAD_CREATE_DETACHED, PTHREAD_CREATE_JOINABLE]
        | some d =>
          by_cases hd : d = PTHREAD_CREATE_DETACHED
          · simp [hd]
          · have hd2 : ¬ PTHREAD_CREATE_DETACHED = d := fun e => hd e.symm
            simp [hd, hd2]
      simp only [GC_pthread_create, hsi, hl, h0, hnew, if_true, hflags]
      refine ⟨_, rfl, rfl, rfl, rfl, ?_, ?_⟩
      · simp [setBucket]
      · intro i hi
        simp [setBucket, Function.update, hi]

/-- C7, amended, at concrete inputs on `initialisedTable`: a failed
allocation of the `start_info` gives `ENOMEM` and no call of the primitive;
a primitive that fails with 11 (`EAGAIN`) gives 11 and the same state; a
primitive that succeeds with the identity 135 gives 0 and the new record at
the head of bucket 7. -/
theorem GC_pthread_create_results_witness :
    GC_pthread_create initialisedTable 1
        ⟨none, none, initOk, none, 5, (0, 7), some ⟨4096, 0, 0, 0, 0, 0, 0⟩⟩ =
        some ⟨initialisedTable, ENOMEM, [], none⟩ ∧
      GC_pthread_create initialisedTable 1
        ⟨none, some 64, initOk, none, 5, (11, 7), some ⟨4096, 0, 0, 0, 0, 0, 0⟩⟩ =
        some ⟨initialisedTable, 11, [64], none⟩ ∧
      (∃ res, GC_pthread_create initialisedTable 1
          ⟨some PTHREAD_CREATE_DETACHED, some 64, initOk, none, 5, (0, 135),
            some ⟨12288, 0, 0, 9, 9, 0, 0⟩⟩ = some res ∧
        res.result = 0 ∧ res.primitiveCalls = [64] ∧ res.new_thread = some 135 ∧
        res.state.GC_threads (hv 135) =
          ⟨12288, 135, DETACHED, 0, 0, 0, 0⟩ :: initialisedTable.GC_threads (hv 135) ∧
        ∀ i, i ≠ hv 135 → res.state.GC_threads i = initialisedTable.GC_threads i) :=
  ⟨(GC_pthread_create_results initialisedTable 1
      ⟨none, none, initOk, none, 5, (0, 7), some ⟨4096, 0, 0, 0, 0, 0, 0⟩⟩).1 rfl,
    ((GC_pthread_create_results initialisedTable 1
      ⟨none, some 64, initOk, none, 5, (11, 7), some ⟨4096, 0, 0, 0, 0, 0, 0⟩⟩).2.2
        64 initialisedTable rfl rfl).1 (by decide),
    ((GC_pthread_create_results initialisedTable 1
      ⟨some PTHREAD_CREATE_DETACHED, some 64, initOk, none, 5, (0, 135),
        some ⟨12288, 0, 0, 9, 9, 0, 0⟩⟩).2.2
        64 initialisedTable rfl rfl).2 rfl ⟨12288, 0, 0, 9, 9, 0, 0⟩ rfl⟩

/-! ## `GC_lock` -/

theorem LockInv_update (sys : LockSys) (t : Nat) (sh1 : LockShared) (l1 : LockLocal)
    (hinv : LockInv sys)
    (hown : ownsLock l1 = true →
      (ownsLock (sys.threads t) = true ∧ sh1.GC_allocate_lock = sys.sh.GC_allocate_lock) ∨
        (sys.sh.GC_allocate_lock = 0 ∧ sh1.GC_allocate_lock ≠ 0))
    (hnot : ownsLock l1 = false →
      ownsLock (sys.threads t) = true ∨
        (sys.sh.GC_allocate_lock ≠ 0 → sh1.GC_allocate_lock ≠ 0)) :
    LockInv ⟨sh1, Function.update sys.threads t l1⟩ := by
  obtain ⟨h1, h2⟩ := hinv
  have others : ownsLock l1 = true → ∀ u, u ≠ t → ownsLock (sys.threads u) = false := by
    intro ho u hu
    rcases hown ho with h | h
    · by_contra hc
      exact hu (h1 u t (by simpa using hc) h.1)
    · by_contra hc
      exact h2 u (by simpa using hc) h.1
  have word : ownsLock l1 = true → sh1.GC_allocate_lock ≠ 0 := by
    intro ho
    rcases hown ho with h | h
    · rw [h.2]; exact h2 t h.1
    · exact h.2
  constructor
  · intro a b ha hb
    simp only [Function.update_apply] at ha hb
    by_cases hat : a = t
    · by_cases hbt : b = t
      · rw [hat, hbt]
      · rw [if_pos hat] at ha
        rw [if_neg hbt] at hb
        rw [others ha b hbt] at hb
        cases hb
    · by_cases hbt : b = t
      · rw [if_pos hbt] at hb
        rw [if_neg hat] at ha
        rw [others hb a hat] at ha
        cases ha
      · rw [if_neg hat] at ha
        rw [if_neg hbt] at hb
        exact h1 a b ha hb
  · intro a ha
    simp only [Function.update_apply] at ha
    show sh1.GC_allocate_lock ≠ 0
    by_cases hat : a = t
    · rw [if_pos hat] at ha
      exact word ha
    · rw [if_neg hat] at ha
      cases hl : ownsLock l1 with
      | true => exact word hl
      | false =>
        rcases hnot hl with h | h
        · exact absurd (h1 a t ha h) hat
        · exact h (h2 a ha)

theorem GC_lock_step_owner (sh sh1 : LockShared) (l l1 : LockLocal)
    (h : GC_lock_step sh l = some (sh1, l1)) :
    (ownsLock l1 = true →
      (ownsLock l = true ∧ sh1.GC_allocate_lock = sh.GC_allocate_lock) ∨
        (sh.GC_allocate_lock = 0 ∧ sh1.GC_allocate_lock ≠ 0)) ∧
    (ownsLock l1 = false →
      ownsLock l = true ∨ (sh.GC_allocate_lock ≠ 0 → sh1.GC_allocate_lock ≠ 0)) := by
  rcases l with ⟨pc, i, msm, mls⟩
  rcases sh with ⟨lk, col, sm, ls⟩
  by_cases hl : lk = 0
  · cases pc <;> simp [GC_lock_step, GC_test_and_set, hl] at h <;>
      (try split at h) <;> simp_all [ownsLock] <;>
      (obtain ⟨rfl, rfl⟩ := h) <;> simp [ownsLock]
  · cases pc <;> simp [GC_lock_step, GC_test_and_set, hl] at h <;>
      (try split at h) <;> simp_all [ownsLock] <;>
      (obtain ⟨rfl, rfl⟩ := h) <;> simp [ownsLock, hl]

theorem LockInv_step (sys sys1 : LockSys) (a : LockAction) (hinv : LockInv sys)
    (h : lockSysStep sys a = some sys1) : LockInv sys1 := by
  cases a with
  | call t =>
    simp only [lockSysStep] at h
    by_cases hp : (sys.threads t).pc = LockPC.outside
    · rw [if_pos hp] at h
      cases h
      apply LockInv_update sys t _ _ hinv
      · intro ho; simp [ownsLock] at ho
      · intro _; right; exact id
    · rw [if_neg hp] at h; cases h
  | step t =>
    simp only [lockSysStep] at h
    cases hs : GC_lock_step sys.sh (sys.threads t) with
    | none => rw [hs] at h; cases h
    | some r =>
      rw [hs] at h
      cases h
      have ho := GC_lock_step_owner sys.sh r.1 (sys.threads t) r.2 hs
      exact LockInv_update sys t _ _ hinv ho.1 ho.2
  | unlock t =>
    simp only [lockSysStep] at h
    by_cases hp : (sys.threads t).pc = LockPC.holding
    · rw [if_pos hp] at h
      cases h
      apply LockInv_update sys t _ _ hinv
      · intro ho; simp [ownsLock] at ho
      · intro _; left; simp [ownsLock, hp]
    · rw [if_neg hp] at h; cases h
  | collecting b =>
    simp only [lockSysStep, Option.some.injEq] at h
    subst h
    exact hinv

theorem LockInv_run : ∀ (acts : List LockAction) (sys0 sys : LockSys),
    LockInv sys0 → lockRun sys0 acts = some sys → LockInv sys := by
  intro acts
  induction acts with
  | nil =>
    intro sys0 sys hinv h
    simp only [lockRun, Option.some.injEq] at h
    subst h
    exact hinv
  | cons a rest ih =>
    intro sys0 sys hinv h
    rw [lockRun] at h
    cases hs : lockSysStep sys0 a with
    | none => rw [hs] at h; cases h
    | some s1 =>
      rw [hs] at h
      exact ih s1 sys (LockInv_step sys0 s1 a hinv hs) h

theorem LockInv_init : LockInv lockInit := by
  constructor
  · intro t u ht
    simp [lockInit, ownsLock] at ht
  · intro t ht
    simp [lockInit, ownsLock] at ht

theorem lockSysStep_frame (sys sys1 : LockSys) (a : LockAction)
    (h : lockSysStep sys a = some sys1) :
    ∃ t0, ∀ u, u ≠ t0 → sys1.threads u = sys.threads u := by
  cases a with
  | call t =>
    refine ⟨t, fun u hu => ?_⟩
    simp only [lockSysStep] at h
    split at h
    · cases h; simp [Function.update, hu]
    · cases h
  | step t =>
    refine ⟨t, fun u hu => ?_⟩
    simp only [lockSysStep] at h
    split at h
    · cases h
    · cases h; simp [Function.update, hu]
  | unlock t =>
    refine ⟨t, fun u hu => ?_⟩
    simp only [lockSysStep] at h
    split at h
    · cases h; simp [Function.update, hu]
    · cases h
  | collecting b =>
    refine ⟨0, fun u _ => ?_⟩
    simp only [lockSysStep, Option.some.injEq] at h
    subst h
    rfl

/-- C8: in every state an interleaving of `lock()` and `unlock()` calls
reaches from program start, with each `GC_test_and_set` one atomic step, at
most one thread is between its return from `GC_lock` and its following
`unlock()`; while a thread is there the lock word is set; and when a step
makes a thread return from `GC_lock`, no other thread is between a return
and its `unlock()`, neither before nor after the step: a second caller does
not return until the holder has released the lock. -/
theorem GC_lock_mutual_exclusion (acts : List LockAction) (sys : LockSys)
    (h : lockRun lockInit acts = some sys) :
    (∀ t u, (sys.threads t).pc = LockPC.holding → (sys.threads u).pc = LockPC.holding →
      t = u) ∧
    (∀ t, (sys.threads t).pc = LockPC.holding → sys.sh.GC_allocate_lock ≠ 0) ∧
    (∀ a sys1 t, lockSysStep sys a = some sys1 →
      (sys.threads t).pc ≠ LockPC.holding → (sys1.threads t).pc = LockPC.holding →
      ∀ u, u ≠ t →
        (sys.threads u).pc ≠ LockPC.holding ∧ (sys1.threads u).pc ≠ LockPC.holding) := by
  have hinv := LockInv_run acts lockInit sys LockInv_init h
  have hold : ∀ (s : LockSys) t, (s.threads t).pc = LockPC.holding →
      ownsLock (s.threads t) = true := by
    intro s t ht
    simp [ownsLock, ht]
  refine ⟨?_, ?_, ?_⟩
  · intro t u ht hu
    exact hinv.1 t u (hold sys t ht) (hold sys u hu)
  · intro t ht
    exact hinv.2 t (hold sys t ht)
  · intro a sys1 t hstep hpre hpost u hu
    have hinv1 := LockInv_step sys sys1 a hinv hstep
    obtain ⟨t0, hframe⟩ := lockSysStep_frame sys sys1 a hstep
    have ht0 : t = t0 := by
      by_contra hne
      rw [hframe t hne] at hpost
      exact hpre hpost
    have hu1 : (sys1.threads u).pc ≠ LockPC.holding := by
      intro hc
      exact hu (hinv1.1 u t (hold sys1 u hc) (hold sys1 t hpost))
    refine ⟨?_, hu1⟩
    rw [← hframe u (by rw [← ht0]; exact hu)]
    exact hu1

/-- C8 at a concrete interleaving: thread 0 acquires the lock at its first
`GC_test_and_set`, thread 1 fails there and starts to spin. -/
theorem GC_lock_mutual_exclusion_witness :
    lockRun lockInit lockExampleActs = some lockExample ∧
      (lockExample.threads 0).pc = LockPC.holding ∧
      (lockExample.threads 1).pc = LockPC.L629 ∧
      (∀ t u, (lockExample.threads t).pc = LockPC.holding →
        (lockExample.threads u).pc = LockPC.holding → t = u) :=
  ⟨rfl, rfl, rfl, (GC_lock_mutual_exclusion lockExampleActs lockExample rfl).1⟩

/-! ## `GC_lookup_thread` -/

theorem unlinkId_sublist (id : Nat) :
    ∀ l l1 : List GC_Thread_Rep, unlinkId id l = some l1 → l1.Sublist l := by
  intro l
  induction l with
  | nil => intro l1 h; simp [unlinkId] at h
  | cons p rest ih =>
    intro l1 h
    rw [unlinkId] at h
    by_cases hp : p.id = id
    · rw [if_pos hp] at h
      cases h
      exact List.sublist_cons_self p rest
    · rw [if_neg hp] at h
      cases hr : unlinkId id rest with
      | none => rw [hr] at h; cases h
      | some l2 =>
        rw [hr] at h
        cases h
        exact (ih l2 hr).cons₂ p

theorem unlinkPtr_sublist (g : Nat) :
    ∀ l l1 : List GC_Thread_Rep, unlinkPtr g l = some l1 → l1.Sublist l := by
  intro l
  induction l with
  | nil => intro l1 h; simp [unlinkPtr] at h
  | cons p rest ih =>
    intro l1 h
    rw [unlinkPtr] at h
    by_cases hp : p.addr = g
    · rw [if_pos hp] at h
      cases h
      exact List.sublist_cons_self p rest
    · rw [if_neg hp] at h
      cases hr : unlinkPtr g rest with
      | none => rw [hr] at h; cases h
      | some l2 =>
        rw [hr] at h
        cases h
        exact (ih l2 hr).cons₂ p

theorem TableInv_sublist (st : Stamped) (i : Nat) (l1 : List GC_Thread_Rep)
    (hinv : TableInv st) (hsub : l1.Sublist (st.gc.GC_threads i)) :
    TableInv { st with gc := setBucket st.gc i l1 } := by
  obtain ⟨ha, hb, hc⟩ := hinv
  refine ⟨?_, ?_, ?_⟩
  · intro j r hr
    by_cases hj : j = i
    · subst hj
      rw [setBucket_same] at hr
      exact ha j r (hsub.subset hr)
    · rw [setBucket_other _ _ _ _ hj] at hr
      exact ha j r hr
  · intro j
    by_cases hj : j = i
    · subst hj
      rw [setBucket_same]
      exact (hb j).sublist hsub
    · rw [setBucket_other _ _ _ _ hj]
      exact hb j
  · intro j r hr
    by_cases hj : j = i
    · subst hj
      rw [setBucket_same] at hr
      exact hc j r (hsub.subset hr)
    · rw [setBucket_other _ _ _ _ hj] at hr
      exact hc j r hr

theorem mem_allRecords_of_bucket (s : GCState)
    (ha : ∀ i r, r ∈ s.GC_threads i → hv r.id = i) (i : Nat) (r : GC_Thread_Rep)
    (hr : r ∈ s.GC_threads i) : r ∈ allRecords s := by
  rw [mem_allRecords]
  refine ⟨i, ?_, hr⟩
  rw [← ha i r hr]
  exact hv_lt _

theorem TableInv_step (st st1 : Stamped) (op : TableOp) (hinv : TableInv st)
    (h : tableStep st op = some st1) : TableInv st1 := by
  cases op with
  | new_thread id m =>
    simp only [tableStep] at h
    cases hn : GC_new_thread st.gc id m with
    | mk s1 res =>
      rw [hn] at h
      cases res with
      | none =>
        simp only [Option.some.injEq] at h
        subst h
        have hb := GC_new_thread_none st.gc id m (by
          cases hx : (if st.gc.first_thread_used then m else some st.gc.first_thread) with
          | none => rfl
          | some blk =>
            rw [GC_new_thread_some st.gc id m blk hx] at hn
            cases hn)
        rw [hn] at hb
        obtain ⟨ha, hb2, hc⟩ := hinv
        simp only at hb
        exact ⟨fun i r hr => ha i r (by rw [← hb.2]; exact hr),
          fun i => by rw [hb.2]; exact hb2 i,
          fun i r hr => hc i r (by rw [← hb.2]; exact hr)⟩
      | some r =>
        simp only at h
        by_cases hfresh : r.addr ∈ (allRecords st.gc).map (fun p => p.addr)
        · rw [if_pos hfresh] at h; cases h
        · rw [if_neg hfresh] at h
          simp only [Option.some.injEq] at h
          subst h
          obtain ⟨blk, _, hr, hs⟩ := GC_new_thread_inv st.gc s1 id m r hn
          obtain ⟨ha, hb, hc⟩ := hinv
          have hrid : r.id = id := by rw [hr]
          have hold : ∀ i q, q ∈ st.gc.GC_threads i →
              Function.update st.stamp r.addr (st.clock + 1) q.addr = st.stamp q.addr := by
            intro i q hq
            have hne : q.addr ≠ r.addr := by
              intro e
              exact hfresh (List.mem_map.2 ⟨q, mem_allRecords_of_bucket st.gc ha i q hq, e⟩)
            simp [Function.update, hne]
          have hbuck : ∀ i, s1.GC_threads i =
              if i = hv id then r :: st.gc.GC_threads (hv id) else st.gc.GC_threads i := by
            intro i
            by_cases hi : i = hv id
            · rw [if_pos hi, hi, hs, setBucket_same]
            · rw [if_neg hi, hs, setBucket_other _ _ _ _ hi]
          refine ⟨?_, ?_, ?_⟩
          · intro i q hq
            simp only at hq
            rw [hbuck] at hq
            by_cases hi : i = hv id
            · rw [if_pos hi] at hq
              rcases List.mem_cons.1 hq with e | e
              · rw [e, hrid, hi]
              · exact (ha _ q e).trans hi.symm
            · rw [if_neg hi] at hq
              exact ha i q hq
          · intro i
            simp only
            have hpw : (st.gc.GC_threads i).Pairwise (fun x y =>
                Function.update st.stamp r.addr (st.clock + 1) y.addr <
                  Function.update st.stamp r.addr (st.clock + 1) x.addr) := by
              refine (hb i).imp_of_mem ?_
              intro x y hx hy hxy
              rw [hold i x hx, hold i y hy]
              exact hxy
            rw [hbuck]
            by_cases hi : i = hv id
            · rw [if_pos hi]
              rw [List.pairwise_cons]
              refine ⟨?_, by rw [← hi]; exact hpw⟩
              intro y hy
              rw [hold _ y hy]
              have := hc _ y hy
              simp only [Function.update_same]
              omega
            · rw [if_neg hi]
              exact hpw
          · intro i q hq
            simp only at hq ⊢
            rw [hbuck] at hq
            by_cases hi : i = hv id
            · rw [if_pos hi] at hq
              rcases List.mem_cons.1 hq with e | e
              · rw [e]; simp
              · rw [hold _ q e]
                have := hc _ q e
                omega
            · rw [if_neg hi] at hq
              rw [hold _ q hq]
              have := hc _ q hq
              omega
  | delete_thread id =>
    simp only [tableStep, GC_delete_thread] at h
    cases hu : unlinkId id (st.gc.GC_threads (hv id)) with
    | none => rw [hu] at h; cases h
    | some l1 =>
      rw [hu] at h
      simp only [Option.map_some', Option.some.injEq] at h
      subst h
      exact TableInv_sublist st (hv id) l1 hinv (unlinkId_sublist id _ l1 hu)
  | delete_specific id g =>
    simp only [tableStep, GC_delete_gc_thread] at h
    cases hu : unlinkPtr g (st.gc.GC_threads (hv id)) with
    | none => rw [hu] at h; cases h
    | some l1 =>
      rw [hu] at h
      simp only [Option.map_some', Option.some.injEq] at h
      subst h
      exact TableInv_sublist st (hv id) l1 hinv (unlinkPtr_sublist g _ l1 hu)

theorem TableInv_run : ∀ (ops : List TableOp) (st0 st : Stamped),
    TableInv st0 → tableRun st0 ops = some st → TableInv st := by
  intro ops
  induction ops with
  | nil =>
    intro st0 st hinv h
    simp only [tableRun, Option.some.injEq] at h
    subst h
    exact hinv
  | cons a rest ih =>
    intro st0 st hinv h
    rw [tableRun] at h
    cases hs : tableStep st0 a with
    | none => rw [hs] at h; cases h
    | some s1 =>
      rw [hs] at h
      exact ih s1 st (TableInv_step st0 s1 a hinv hs) h

theorem TableInv_empty (a0 : Nat) : TableInv (emptyTable a0) := by
  refine ⟨?_, ?_, ?_⟩
  · intro i r hr; simp [emptyTable, boot] at hr
  · intro i; simp [emptyTable, boot]
  · intro i r hr; simp [emptyTable, boot] at hr

theorem find?_first_of_pairwise (R : GC_Thread_Rep → GC_Thread_Rep → Prop)
    (q : GC_Thread_Rep → Bool) :
    ∀ (l : List GC_Thread_Rep) (r : GC_Thread_Rep), l.Pairwise R → l.find? q = some r →
      ∀ r1 ∈ l, q r1 = true → r1 ≠ r → R r r1 := by
  intro l
  induction l with
  | nil => intro r _ h; simp at h
  | cons x xs ih =>
    intro r hpw hf r1 hr1 hq hne
    rw [List.pairwise_cons] at hpw
    rw [List.find?_cons] at hf
    cases hx : q x with
    | true =>
      rw [hx] at hf
      simp only [Option.some.injEq] at hf
      subst hf
      rcases List.mem_cons.1 hr1 with e | e
      · exact absurd e hne
      · exact hpw.1 r1 e
    | false =>
      rw [hx] at hf
      rcases List.mem_cons.1 hr1 with e | e
      · rw [e, hx] at hq; cases hq
      · exact ih r hpw.2 hf r1 e hq hne

/-- C2: for every table reached from the empty table by `GC_new_thread`,
`GC_delete_thread` and `GC_delete_gc_thread`, and every id:
`GC_lookup_thread(id)` is null exactly when no record of the table has that
id; when it returns a record, the record is in the table, has that id, and
was inserted after every other record of the table with that id; and right
after a successful `GC_new_thread(id)` it returns the new record. -/
theorem GC_lookup_thread_most_recent (a0 : Nat) (ops : List TableOp) (st : Stamped)
    (h : tableRun (emptyTable a0) ops = some st) (id : Nat) :
    (GC_lookup_thread st.gc id = none ↔ ∀ r ∈ allRecords st.gc, r.id ≠ id) ∧
    (∀ r, GC_lookup_thread st.gc id = some r →
      r ∈ allRecords st.gc ∧ r.id = id ∧
        ∀ r1 ∈ allRecords st.gc, r1.id = id → r1 ≠ r → st.stamp r1.addr < st.stamp r.addr) ∧
    (∀ m st1 r, tableStep st (TableOp.new_thread id m) = some st1 →
      (GC_new_thread st.gc id m).2 = some r → GC_lookup_thread st1.gc id = some r) := by
  have hinv := TableInv_run ops (emptyTable a0) st (TableInv_empty a0) h
  obtain ⟨ha, hb, hc⟩ := hinv
  have hbucket : ∀ r, r ∈ allRecords st.gc → r.id = id → r ∈ st.gc.GC_threads (hv id) := by
    intro r hr hid
    obtain ⟨i, _, hi⟩ := (mem_allRecords st.gc r).1 hr
    have := ha i r hi
    rw [hid] at this
    rw [this]
    exact hi
  refine ⟨?_, ?_, ?_⟩
  · unfold GC_lookup_thread
    rw [List.find?_eq_none]
    constructor
    · intro hn r hr hid
      have := hn r (hbucket r hr hid)
      simp [hid] at this
    · intro hn r hr
      have := hn r (mem_allRecords_of_bucket st.gc ha _ r hr)
      simpa using this
  · intro r hr
    unfold GC_lookup_thread at hr
    have hmem := List.mem_of_find?_eq_some hr
    have hid : r.id = id := by simpa using List.find?_some hr
    refine ⟨mem_allRecords_of_bucket st.gc ha _ r hmem, hid, ?_⟩
    intro r1 hr1 hid1 hne
    exact find?_first_of_pairwise _ _ _ r (hb (hv id)) hr r1 (hbucket r1 hr1 hid1)
      (by simpa using hid1) hne
  · intro m st1 r hstep hnew
    simp only [tableStep] at hstep
    cases hn : GC_new_thread st.gc id m with
    | mk s1 res =>
      rw [hn] at hstep hnew
      simp only at hnew
      subst hnew
      simp only at hstep
      split at hstep
      · cases hstep
      · simp only [Option.some.injEq] at hstep
        subst hstep
        obtain ⟨blk, _, hr, hs⟩ := GC_new_thread_inv st.gc s1 id m r hn
        unfold GC_lookup_thread
        simp only
        rw [hs, setBucket_same, List.find?_cons]
        have : r.id = id := by rw [hr]
        simp [this]

/-- C2 at a concrete history: after `recycleOps` the lookup of 7 returns
the record at 8192, the later of the two inserted with that id. -/
theorem GC_lookup_thread_most_recent_witness :
    tableRun (emptyTable 1000) recycleOps = some recycleResult ∧
      GC_lookup_thread recycleResult.gc 7 = some ⟨8192, 7, 0, 0, 0, 0, 0⟩ ∧
      (GC_lookup_thread recycleResult.gc 5 = none ↔
        ∀ r ∈ allRecords recycleResult.gc, r.id ≠ 5) :=
  ⟨rfl, rfl, (GC_lookup_thread_most_recent 1000 recycleOps recycleResult rfl 5).1⟩

/-! ## The lifecycle -/

theorem thread_eq_of_record {ts : List Thread} (hnd : (ts.map Thread.record).Nodup)
    {t1 t2 : Thread} (h1 : t1 ∈ ts) (h2 : t2 ∈ ts) (h : t1.record = t2.record) : t1 = t2 :=
  List.inj_on_of_nodup_map hnd h1 h2 h

theorem key_eq_of_addr {l : List Key} (hnd : (l.map Key.addr).Nodup)
    {k1 k2 : Key} (h1 : k1 ∈ l) (h2 : k2 ∈ l) (h : k1.addr = k2.addr) : k1 = k2 :=
  List.inj_on_of_nodup_map hnd h1 h2 h

theorem mem_update_cons (kt : Nat → List Key) (i0 i : Nat) (k0 k : Key) :
    k ∈ Function.update kt i0 (k0 :: kt i0) i ↔ (i = i0 ∧ k = k0) ∨ k ∈ kt i := by
  by_cases hi : i = i0
  · subst hi
    simp
  · simp [Function.update, hi]

theorem KInv_insert (kt : Nat → List Key) (ts : List Thread) (mainId : Nat)
    (h : KInv kt ts mainId) (id a : Nat) (d : Bool) (hid : id ≠ mainId)
    (hheld : ∀ t ∈ ts, t.holdsId = true → t.id ≠ id)
    (hfresh : ∀ i, ∀ k ∈ kt i, k.addr ≠ a) :
    KInv (Function.update kt (hv id) (⟨a, id, d⟩ :: kt (hv id)))
      (⟨id, a, d, Phase.created, JoinPhase.notJoining⟩ :: ts) mainId := by
  have hrec : ∀ t ∈ ts, t.record ≠ a := by
    intro t ht e
    exact hfresh _ _ (h.own t ht) e
  refine ⟨?_, ?_, ?_, ?_, ?_, ?_, ?_, ?_, ?_, ?_, ?_, ?_⟩
  · intro i k hk
    rcases (mem_update_cons kt (hv id) i _ k).1 hk with ⟨hi, e⟩ | hk
    · rw [e, hi]
    · exact h.wf i k hk
  · intro i
    by_cases hi : i = hv id
    · subst hi
      rw [Function.update_same, List.map_cons, List.nodup_cons]
      refine ⟨?_, h.nodupB _⟩
      intro hmem
      obtain ⟨k, hk, e⟩ := List.mem_map.1 hmem
      exact hfresh _ k hk e
    · rw [Function.update_noteq hi]
      exact h.nodupB i
  · intro i k hk
    rcases (mem_update_cons kt (hv id) i _ k).1 hk with ⟨_, e⟩ | hk
    · right
      exact ⟨_, List.mem_cons_self _ _, by rw [e]; rfl⟩
    · rcases h.owner i k hk with ⟨h1, h2⟩ | ⟨t, ht, e⟩
      · left
        refine ⟨h1, ?_⟩
        intro t ht
        rcases List.mem_cons.1 ht with e | ht
        · rw [e]
          exact fun e2 => hfresh i k hk e2.symm
        · exact h2 t ht
      · right
        exact ⟨t, List.mem_cons_of_mem _ ht, e⟩
  · rw [List.map_cons, List.nodup_cons]
    refine ⟨?_, h.nodupT⟩
    intro hmem
    obtain ⟨t, ht, e⟩ := List.mem_map.1 hmem
    exact hrec t ht e
  · intro t ht
    rcases List.mem_cons.1 ht with e | ht
    · rw [e]; exact hid
    · exact h.notMain t ht
  · intro t ht
    rcases List.mem_cons.1 ht with e | ht
    · rw [e]
      exact (mem_update_cons kt (hv id) (hv id) _ _).2 (Or.inl ⟨rfl, rfl⟩)
    · exact (mem_update_cons kt (hv id) _ _ _).2 (Or.inr (h.own t ht))
  · intro t ht hh
    rcases List.mem_cons.1 ht with e | ht
    · rw [e]
      simp [Thread.key]
    · have hne := hheld t ht hh
      by_cases hi : hv t.id = hv id
      · rw [hi, Function.update_same, List.find?_cons]
        have : decide ((⟨a, id, d⟩ : Key).id = t.id) = false := by
          simp only [decide_eq_false_iff_not]
          exact fun e => hne e.symm
        rw [this, ← hi]
        exact h.head t ht hh
      · rw [Function.update_noteq hi]
        exact h.head t ht hh
  · intro t ht m hm
    rcases List.mem_cons.1 ht with e | ht
    · rw [e] at hm; cases hm
    · exact h.me t ht m hm
  · intro t ht g hg
    rcases List.mem_cons.1 ht with e | ht
    · rw [e] at hg
      rcases hg with hg | hg <;> cases hg
    · exact h.cached t ht g hg
  · intro t ht hd
    rcases List.mem_cons.1 ht with e | ht
    · rw [e]
    · exact h.detNoJoin t ht hd
  · intro t ht g hg
    rcases List.mem_cons.1 ht with e | ht
    · rw [e] at hg; cases hg
    · exact h.retExited t ht g hg
  · intro t1 ht1 t2 ht2 hh1 hh2 hid12
    rcases List.mem_cons.1 ht1 with e1 | ht1
    · rcases List.mem_cons.1 ht2 with e2 | ht2
      · rw [e1, e2]
      · rw [e1] at hid12
        exact absurd hid12.symm (hheld t2 ht2 hh2)
    · rcases List.mem_cons.1 ht2 with e2 | ht2
      · rw [e2] at hid12
        exact absurd hid12 (hheld t1 ht1 hh1)
      · exact h.idUnique t1 ht1 t2 ht2 hh1 hh2 hid12

theorem find?_erase_ne (q : Key → Bool) (l : List Key) (k k0 : Key)
    (h : l.find? q = some k) (hne : k ≠ k0) : (l.erase k0).find? q = some k := by
  by_cases hmem : k0 ∈ l
  · obtain ⟨l1, l2, _, hl, he⟩ := List.exists_erase_eq hmem
    rw [he]
    rw [hl] at h
    exact find?_remove_middle q l1 l2 k0 k h hne
  · rw [List.erase_of_not_mem hmem]
    exact h

theorem mem_dropThread (a : Nat) (ts : List Thread) (t : Thread) :
    t ∈ dropThread a ts ↔ t ∈ ts ∧ t.record ≠ a := by
  simp [dropThread, List.mem_filter]

theorem KInv_erase (kt : Nat → List Key) (ts : List Thread) (mainId : Nat)
    (h : KInv kt ts mainId) (t : Thread) (ht : t ∈ ts) :
    KInv (Function.update kt (hv t.id) ((kt (hv t.id)).erase t.key))
      (dropThread t.record ts) mainId := by
  have hsub : ∀ i, ∀ k ∈ Function.update kt (hv t.id) ((kt (hv t.id)).erase t.key) i,
      k ∈ kt i := by
    intro i k hk
    by_cases hi : i = hv t.id
    · subst hi
      rw [Function.update_same] at hk
      exact List.mem_of_mem_erase hk
    · rw [Function.update_noteq hi] at hk
      exact hk
  have hkeep : ∀ t2 ∈ ts, t2.record ≠ t.record → t2.key ≠ t.key := by
    intro t2 _ hne e
    apply hne
    have := congrArg Key.addr e
    exact this
  refine ⟨?_, ?_, ?_, ?_, ?_, ?_, ?_, ?_, ?_, ?_, ?_, ?_⟩
  · intro i k hk
    exact h.wf i k (hsub i k hk)
  · intro i
    by_cases hi : i = hv t.id
    · subst hi
      rw [Function.update_same]
      exact (h.nodupB _).sublist ((List.erase_sublist _ _).map _)
    · rw [Function.update_noteq hi]
      exact h.nodupB i
  · intro i k hk
    rcases h.owner i k (hsub i k hk) with ⟨h1, h2⟩ | ⟨t1, ht1, e⟩
    · left
      exact ⟨h1, fun t2 ht2 => h2 t2 ((mem_dropThread _ _ _).1 ht2).1⟩
    · right
      refine ⟨t1, (mem_dropThread _ _ _).2 ⟨ht1, ?_⟩, e⟩
      intro hrec
      have ht1t : t1 = t := thread_eq_of_record h.nodupT ht1 ht hrec
      subst ht1t
      have hi : i = hv t1.id := by
        have := h.wf i k (hsub i k hk)
        rw [← e] at this
        exact this.symm
      subst hi
      rw [Function.update_same, e] at hk
      have hnd : (kt (hv t1.id)).Nodup := List.Nodup.of_map _ (h.nodupB _)
      exact ((List.Nodup.mem_erase_iff hnd).1 hk).1 rfl
  · unfold dropThread
    exact h.nodupT.sublist ((List.filter_sublist _).map _)
  · intro t2 ht2
    exact h.notMain t2 ((mem_dropThread _ _ _).1 ht2).1
  · intro t2 ht2
    obtain ⟨hm, hne⟩ := (mem_dropThread _ _ _).1 ht2
    by_cases hi : hv t2.id = hv t.id
    · rw [hi, Function.update_same]
      rw [← hi]
      exact (List.mem_erase_of_ne (hkeep t2 hm hne)).2 (h.own t2 hm)
    · rw [Function.update_noteq hi]
      exact h.own t2 hm
  · intro t2 ht2 hh
    obtain ⟨hm, hne⟩ := (mem_dropThread _ _ _).1 ht2
    by_cases hi : hv t2.id = hv t.id
    · rw [hi, Function.update_same]
      rw [← hi]
      exact find?_erase_ne _ _ _ _ (h.head t2 hm hh) (hkeep t2 hm hne)
    · rw [Function.update_noteq hi]
      exact h.head t2 hm hh
  · intro t2 ht2
    exact h.me t2 ((mem_dropThread _ _ _).1 ht2).1
  · intro t2 ht2
    exact h.cached t2 ((mem_dropThread _ _ _).1 ht2).1
  · intro t2 ht2
    exact h.detNoJoin t2 ((mem_dropThread _ _ _).1 ht2).1
  · intro t2 ht2
    exact h.retExited t2 ((mem_dropThread _ _ _).1 ht2).1
  · intro t1 ht1 t2 ht2
    exact h.idUnique t1 ((mem_dropThread _ _ _).1 ht1).1 t2 ((mem_dropThread _ _ _).1 ht2).1

theorem mem_setThread (a : Nat) (f : Thread → Thread) (ts : List Thread) (t1 : Thread) :
    t1 ∈ setThread a f ts ↔ ∃ t ∈ ts, t1 = if t.record = a then f t else t := by
  simp only [setThread, List.mem_map]
  constructor
  · rintro ⟨t, ht, e⟩
    exact ⟨t, ht, e.symm⟩
  · rintro ⟨t, ht, e⟩
    exact ⟨t, ht, e.symm⟩

theorem KInv_setThread (kt : Nat → List Key) (ts : List Thread) (mainId : Nat)
    (h : KInv kt ts mainId) (a : Nat) (f : Thread → Thread)
    (hf : ∀ t, (f t).id = t.id ∧ (f t).record = t.record ∧ (f t).detached = t.detached)
    (hhold : ∀ t ∈ ts, t.record = a → (f t).holdsId = true → t.holdsId = true)
    (hme : ∀ t ∈ ts, t.record = a → ∀ m, (f t).phase = Phase.running m → m = t.record)
    (hcached : ∀ t ∈ ts, t.record = a → ∀ g,
      (f t).joiner = JoinPhase.looked g ∨ (f t).joiner = JoinPhase.returned g → g = t.record)
    (hdet : ∀ t ∈ ts, t.record = a → t.detached = true → (f t).joiner = JoinPhase.notJoining)
    (hret : ∀ t ∈ ts, t.record = a → ∀ g, (f t).joiner = JoinPhase.returned g →
      (f t).phase = Phase.exited) :
    KInv kt (setThread a f ts) mainId := by
  have pre : ∀ t1 ∈ setThread a f ts, ∃ t ∈ ts, t1.id = t.id ∧ t1.record = t.record ∧
      t1.detached = t.detached ∧ t1.key = t.key ∧ (t1.holdsId = true → t.holdsId = true) ∧
      (t1 = t ∨ (t.record = a ∧ t1 = f t)) := by
    intro t1 ht1
    obtain ⟨t, ht, e⟩ := (mem_setThread a f ts t1).1 ht1
    refine ⟨t, ht, ?_⟩
    by_cases hr : t.record = a
    · rw [if_pos hr] at e
      subst e
      obtain ⟨h1, h2, h3⟩ := hf t
      refine ⟨h1, h2, h3, ?_, hhold t ht hr, Or.inr ⟨hr, rfl⟩⟩
      simp [Thread.key, h1, h2, h3]
    · rw [if_neg hr] at e
      subst e
      exact ⟨rfl, rfl, rfl, rfl, id, Or.inl rfl⟩
  have hmaprec : (setThread a f ts).map Thread.record = ts.map Thread.record := by
    unfold setThread
    rw [List.map_map]
    apply List.map_congr_left
    intro t _
    simp only [Function.comp]
    by_cases hr : t.record = a
    · rw [if_pos hr]; exact (hf t).2.1
    · rw [if_neg hr]
  refine ⟨h.wf, h.nodupB, ?_, ?_, ?_, ?_, ?_, ?_, ?_, ?_, ?_, ?_⟩
  · intro i k hk
    rcases h.owner i k hk with ⟨h1, h2⟩ | ⟨t, ht, e⟩
    · left
      refine ⟨h1, ?_⟩
      intro t1 ht1
      obtain ⟨t, ht, _, hr, _⟩ := pre t1 ht1
      rw [hr]
      exact h2 t ht
    · right
      refine ⟨if t.record = a then f t else t, (mem_setThread a f ts _).2 ⟨t, ht, rfl⟩, ?_⟩
      by_cases hr : t.record = a
      · rw [if_pos hr, ← e]
        obtain ⟨h1, h2, h3⟩ := hf t
        simp [Thread.key, h1, h2, h3]
      · rw [if_neg hr, e]
  · rw [hmaprec]
    exact h.nodupT
  · intro t1 ht1
    obtain ⟨t, ht, hi, _⟩ := pre t1 ht1
    rw [hi]
    exact h.notMain t ht
  · intro t1 ht1
    obtain ⟨t, ht, hi, _, _, hk, _⟩ := pre t1 ht1
    rw [hi, hk]
    exact h.own t ht
  · intro t1 ht1 hh
    obtain ⟨t, ht, hi, _, _, hk, hho, _⟩ := pre t1 ht1
    rw [hi, hk]
    exact h.head t ht (hho hh)
  · intro t1 ht1 m hm
    obtain ⟨t, ht, _, hr, _, _, _, hcase⟩ := pre t1 ht1
    rw [hr]
    rcases hcase with e | ⟨hra, e⟩
    · rw [e] at hm
      exact h.me t ht m hm
    · rw [e] at hm
      exact hme t ht hra m hm
  · intro t1 ht1 g hg
    obtain ⟨t, ht, _, hr, _, _, _, hcase⟩ := pre t1 ht1
    rw [hr]
    rcases hcase with e | ⟨hra, e⟩
    · rw [e] at hg
      exact h.cached t ht g hg
    · rw [e] at hg
      exact hcached t ht hra g hg
  · intro t1 ht1 hd
    obtain ⟨t, ht, _, _, hdd, _, _, hcase⟩ := pre t1 ht1
    rw [hdd] at hd
    rcases hcase with e | ⟨hra, e⟩
    · rw [e]
      exact h.detNoJoin t ht hd
    · rw [e]
      exact hdet t ht hra hd
  · intro t1 ht1 g hg
    obtain ⟨t, ht, _, _, _, _, _, hcase⟩ := pre t1 ht1
    rcases hcase with e | ⟨hra, e⟩
    · rw [e] at hg ⊢
      exact h.retExited t ht g hg
    · rw [e] at hg ⊢
      exact hret t ht hra g hg
  · intro t1 ht1 t2 ht2 hh1 hh2 hid
    obtain ⟨u1, hu1, hi1, hr1, _, _, hho1, _⟩ := pre t1 ht1
    obtain ⟨u2, hu2, hi2, hr2, _, _, hho2, _⟩ := pre t2 ht2
    rw [hr1, hr2]
    rw [hi1, hi2] at hid
    exact h.idUnique u1 hu1 u2 hu2 (hho1 hh1) (hho2 hh2) hid


theorem keyTable_setBucket (s : GCState) (i : Nat) (l : List GC_Thread_Rep) :
    keyTable (setBucket s i l) = Function.update (keyTable s) i (l.map key) := by
  funext j
  by_cases hj : j = i
  · subst hj
    simp [keyTable, setBucket]
  · simp [keyTable, setBucket, Function.update, hj]

theorem hasFlag_or_FINISHED (p : GC_Thread_Rep) (flags : Nat) (h : flags = p.flags ||| FINISHED)
    (q : GC_Thread_Rep) (hq : q.flags = flags) :
    hasFlag q DETACHED = hasFlag p DETACHED := by
  unfold hasFlag
  rw [hq, h]
  have : (p.flags ||| FINISHED) &&& DETACHED = p.flags &&& DETACHED := by
    rw [Nat.and_comm, Nat.and_or_distrib_left]
    have e : DETACHED &&& FINISHED = 0 := by decide
    rw [e, Nat.or_zero, Nat.and_comm]
  rw [this]

theorem key_finish (p : GC_Thread_Rep) (result : Nat) :
    key { p with status := result, flags := p.flags ||| FINISHED } = key p := by
  unfold key
  simp only [Key.mk.injEq, true_and]
  exact hasFlag_or_FINISHED p _ rfl _ rfl

theorem key_exit (p : GC_Thread_Rep) :
    key { p with flags := p.flags ||| FINISHED } = key p := by
  unfold key
  simp only [Key.mk.injEq, true_and]
  exact hasFlag_or_FINISHED p _ rfl _ rfl

theorem modifyPtr_map_key (a : Nat) (f : GC_Thread_Rep → GC_Thread_Rep)
    (hf : ∀ p, key (f p) = key p) :
    ∀ l : List GC_Thread_Rep, (modifyPtr a f l).map key = l.map key := by
  intro l
  induction l with
  | nil => rfl
  | cons p rest ih =>
    rw [modifyPtr]
    by_cases hp : p.addr = a
    · rw [if_pos hp, List.map_cons, List.map_cons, hf]
    · rw [if_neg hp, List.map_cons, List.map_cons, ih]

theorem modifyId_map_key (id : Nat) (f : GC_Thread_Rep → GC_Thread_Rep)
    (hf : ∀ p, key (f p) = key p) :
    ∀ l : List GC_Thread_Rep, (modifyId id f l).map key = l.map key := by
  intro l
  induction l with
  | nil => rfl
  | cons p rest ih =>
    rw [modifyId]
    by_cases hp : p.id = id
    · rw [if_pos hp, List.map_cons, List.map_cons, hf]
    · rw [if_neg hp, List.map_cons, List.map_cons, ih]

theorem unlinkId_eq_eraseP (id : Nat) :
    ∀ l l1 : List GC_Thread_Rep, unlinkId id l = some l1 →
      l1 = l.eraseP (fun p => decide (p.id = id)) := by
  intro l
  induction l with
  | nil => intro l1 h; simp [unlinkId] at h
  | cons p rest ih =>
    intro l1 h
    rw [unlinkId] at h
    by_cases hp : p.id = id
    · rw [if_pos hp] at h
      cases h
      rw [List.eraseP_cons_of_pos (by simpa using hp)]
    · rw [if_neg hp] at h
      cases hr : unlinkId id rest with
      | none => rw [hr] at h; cases h
      | some l2 =>
        rw [hr] at h
        cases h
        rw [List.eraseP_cons_of_neg (by simpa using hp), ← ih l2 hr]

theorem unlinkPtr_eq_eraseP (g : Nat) :
    ∀ l l1 : List GC_Thread_Rep, unlinkPtr g l = some l1 →
      l1 = l.eraseP (fun p => decide (p.addr = g)) := by
  intro l
  induction l with
  | nil => intro l1 h; simp [unlinkPtr] at h
  | cons p rest ih =>
    intro l1 h
    rw [unlinkPtr] at h
    by_cases hp : p.addr = g
    · rw [if_pos hp] at h
      cases h
      rw [List.eraseP_cons_of_pos (by simpa using hp)]
    · rw [if_neg hp] at h
      cases hr : unlinkPtr g rest with
      | none => rw [hr] at h; cases h
      | some l2 =>
        rw [hr] at h
        cases h
        rw [List.eraseP_cons_of_neg (by simpa using hp), ← ih l2 hr]

theorem eraseP_eq_erase_of_find? (q : Key → Bool) :
    ∀ (l : List Key) (k : Key), l.find? q = some k → l.eraseP q = l.erase k := by
  intro l
  induction l with
  | nil => intro k h; simp at h
  | cons x xs ih =>
    intro k h
    rw [List.find?_cons] at h
    cases hx : q x with
    | true =>
      rw [hx] at h
      simp only [Option.some.injEq] at h
      subst h
      rw [List.eraseP_cons_of_pos hx, List.erase_cons_head]
    | false =>
      rw [hx] at h
      have hk : q k = true := List.find?_some h
      have hne : x ≠ k := by
        intro e
        rw [e, hk] at hx
        cases hx
      rw [List.eraseP_cons_of_neg (by simp [hx]), List.erase_cons_tail (by simpa using hne),
        ih k h]

theorem find?_addr_of_mem :
    ∀ (l : List Key) (k : Key), k ∈ l → (l.map Key.addr).Nodup →
      l.find? (fun x => decide (x.addr = k.addr)) = some k := by
  intro l
  induction l with
  | nil => intro k h; simp at h
  | cons x xs ih =>
    intro k hk hnd
    rw [List.map_cons, List.nodup_cons] at hnd
    rw [List.find?_cons]
    by_cases hx : x.addr = k.addr
    · have : x = k := by
        rcases List.mem_cons.1 hk with e | e
        · exact e.symm
        · exact absurd (List.mem_map.2 ⟨k, e, hx.symm⟩) hnd.1
      simp [this]
    · have hk2 : k ∈ xs := by
        rcases List.mem_cons.1 hk with e | e
        · exact absurd (by rw [e]) hx
        · exact e
      simp only [hx, decide_False]
      exact ih k hk2 hnd.2

theorem lookup_key (s : GCState) (id : Nat) (k0 : Key)
    (hhead : (keyTable s (hv id)).find? (fun k => decide (k.id = id)) = some k0) :
    ∃ r, GC_lookup_thread s id = some r ∧ key r = k0 := by
  unfold keyTable at hhead
  rw [List.find?_map] at hhead
  unfold GC_lookup_thread
  cases hf : (s.GC_threads (hv id)).find? (fun p => decide (p.id = id)) with
  | none =>
    have : ((fun k : Key => decide (k.id = id)) ∘ key) = (fun p => decide (p.id = id)) := rfl
    rw [this, hf] at hhead
    cases hhead
  | some r =>
    have : ((fun k : Key => decide (k.id = id)) ∘ key) = (fun p => decide (p.id = id)) := rfl
    rw [this, hf] at hhead
    simp only [Option.map_some', Option.some.injEq] at hhead
    exact ⟨r, rfl, hhead⟩

theorem GC_thread_exit_proc_keys (s s1 : GCState) (id : Nat) (k0 : Key)
    (hhead : (keyTable s (hv id)).find? (fun k => decide (k.id = id)) = some k0)
    (h : GC_thread_exit_proc s id = some s1) :
    keyTable s1 = (if k0.det = true then
        Function.update (keyTable s) (hv id) ((keyTable s (hv id)).erase k0)
      else keyTable s) ∧
      s1.GC_thr_initialized = s.GC_thr_initialized ∧
      s1.first_thread_used = s.first_thread_used := by
  obtain ⟨r, hr, hkr⟩ := lookup_key _ id k0 hhead
  unfold GC_thread_exit_proc at h
  rw [hr] at h
  simp only at h
  have hdet : hasFlag r DETACHED = k0.det := by rw [← hkr]; rfl
  rw [hdet] at h
  by_cases hd : k0.det = true
  · rw [if_pos hd] at h ⊢
    unfold GC_delete_thread at h
    cases hu : unlinkId id (s.GC_threads (hv id)) with
    | none => rw [hu] at h; cases h
    | some l2 =>
      rw [hu] at h
      simp only [Option.map_some', Option.some.injEq] at h
      subst h
      refine ⟨?_, rfl, rfl⟩
      rw [keyTable_setBucket]
      have e := List.eraseP_map (p := fun k : Key => decide (k.id = id)) key
        (s.GC_threads (hv id))
      have e2 : ((fun k : Key => decide (k.id = id)) ∘ key) = (fun p => decide (p.id = id)) := rfl
      rw [e2] at e
      have e3 : (s.GC_threads (hv id)).map key = keyTable s (hv id) := rfl
      rw [unlinkId_eq_eraseP id _ l2 hu, ← e, e3, eraseP_eq_erase_of_find? _ _ k0 hhead]
  · rw [if_neg hd] at h ⊢
    simp only [Option.some.injEq] at h
    subst h
    refine ⟨?_, rfl, rfl⟩
    have e3 : (s.GC_threads (hv id)).map key = keyTable s (hv id) := rfl
    rw [keyTable_setBucket, modifyId_map_key _ _ key_exit, e3, Function.update_eq_self]

theorem GC_start_routine_finish_keys (s s1 : GCState) (id me result : Nat) (k0 : Key)
    (hhead : (keyTable s (hv id)).find? (fun k => decide (k.id = id)) = some k0)
    (h : GC_start_routine_finish s id me result = some s1) :
    keyTable s1 = (if k0.det = true then
        Function.update (keyTable s) (hv id) ((keyTable s (hv id)).erase k0)
      else keyTable s) ∧
      s1.GC_thr_initialized = s.GC_thr_initialized ∧
      s1.first_thread_used = s.first_thread_used := by
  unfold GC_start_routine_finish at h
  by_cases hme : me = 0
  · rw [if_pos hme] at h; cases h
  rw [if_neg hme] at h
  simp only at h
  generalize hl1 : modifyPtr me
    (fun p => { p with status := result, flags := p.flags ||| FINISHED })
    (s.GC_threads (hv id)) = l1 at h
  have hmap1 : l1.map key = keyTable s (hv id) := by
    rw [← hl1, modifyPtr_map_key _ _ (fun p => key_finish p result)]
    rfl
  have hkt1 : keyTable (setBucket s (hv id) l1) = keyTable s := by
    rw [keyTable_setBucket, hmap1, Function.update_eq_self]
  have hhead1 : (keyTable (setBucket s (hv id) l1) (hv id)).find?
      (fun k => decide (k.id = id)) = some k0 := by
    rw [hkt1]; exact hhead
  have := GC_thread_exit_proc_keys _ s1 id k0 hhead1 h
  rw [hkt1] at this
  exact this

theorem GC_pthread_join_delete_keys (s s1 : GCState) (id g : Nat) (k0 : Key)
    (hk0 : k0 ∈ keyTable s (hv id)) (hg : k0.addr = g)
    (hnd : ((keyTable s (hv id)).map Key.addr).Nodup)
    (h : GC_pthread_join_delete s id g = some s1) :
    keyTable s1 = Function.update (keyTable s) (hv id) ((keyTable s (hv id)).erase k0) ∧
      s1.GC_thr_initialized = s.GC_thr_initialized ∧
      s1.first_thread_used = s.first_thread_used := by
  unfold GC_pthread_join_delete GC_delete_gc_thread at h
  cases hu : unlinkPtr g (s.GC_threads (hv id)) with
  | none => rw [hu] at h; cases h
  | some l2 =>
    rw [hu] at h
    simp only [Option.map_some', Option.some.injEq] at h
    subst h
    refine ⟨?_, rfl, rfl⟩
    rw [keyTable_setBucket]
    have e := List.eraseP_map (p := fun k : Key => decide (k.addr = g)) key (s.GC_threads (hv id))
    have e2 : ((fun k : Key => decide (k.addr = g)) ∘ key) = (fun p => decide (p.addr = g)) := rfl
    rw [e2] at e
    have hf := find?_addr_of_mem _ k0 hk0 hnd
    rw [hg] at hf
    have e3 : (s.GC_threads (hv id)).map key = keyTable s (hv id) := rfl
    rw [unlinkPtr_eq_eraseP g _ l2 hu, ← e, e3, eraseP_eq_erase_of_find? _ _ k0 hf]

theorem GC_pthread_create_keys (s : GCState) (self : Nat) (c : CreateCalls)
    (res : CreateResult) (hi : s.GC_thr_initialized = true)
    (hu : s.first_thread_used = true) (h : GC_pthread_create s self c = some res) :
    (res.new_thread = none ∧ res.state = s) ∨
    (∃ r, res.new_thread = some c.pthread_create.2 ∧ r.id = c.pthread_create.2 ∧
      hasFlag r DETACHED =
        decide (c.attr.getD PTHREAD_CREATE_JOINABLE = PTHREAD_CREATE_DETACHED) ∧
      res.state.GC_threads = Function.update s.GC_threads (hv c.pthread_create.2)
        (r :: s.GC_threads (hv c.pthread_create.2)) ∧
      res.state.GC_thr_initialized = true ∧ res.state.first_thread_used = true) := by
  unfold GC_pthread_create at h
  cases hm : c.GC_malloc with
  | none =>
    rw [hm] at h
    simp only [Option.some.injEq] at h
    subst h
    exact Or.inl ⟨rfl, rfl⟩
  | some si =>
    rw [hm] at h
    simp only [lazyInit, hi, if_true] at h
    by_cases hr : 0 = c.pthread_create.1
    · rw [if_pos hr] at h
      cases hb : c.malloc with
      | none =>
        have := (GC_new_thread_none s c.pthread_create.2 c.malloc (by rw [hu, if_pos rfl, hb]))
        cases hn : GC_new_thread s c.pthread_create.2 c.malloc with
        | mk s2 o =>
          rw [hn] at this h
          simp only at this
          rw [this.1] at h
          cases h
      | some blk =>
        rw [GC_new_thread_some s c.pthread_create.2 c.malloc blk (by rw [hu, if_pos rfl, hb])] at h
        simp only [Option.some.injEq] at h
        subst h
        right
        refine ⟨{ blk with
            id := c.pthread_create.2
            flags := (if PTHREAD_CREATE_DETACHED = c.attr.getD PTHREAD_CREATE_JOINABLE
              then 0 ||| DETACHED else 0)
            stack_ptr := 0
            stack_end := 0 }, rfl, rfl, ?_, ?_, hi, rfl⟩
        · unfold hasFlag
          simp only
          cases hattr : c.attr with
          | none => simp [PTHREAD_CREATE_DETACHED, PTHREAD_CREATE_JOINABLE]
          | some d =>
            by_cases hd : d = PTHREAD_CREATE_DETACHED
            · simp [hd, DETACHED]
            · have hd2 : ¬ PTHREAD_CREATE_DETACHED = d := fun e => hd e.symm
              simp [hd, hd2]
        · simp [setBucket]
    · rw [if_neg hr] at h
      simp only [Option.some.injEq] at h
      subst h
      exact Or.inl ⟨rfl, rfl⟩


theorem find?_record (ts : List Thread) (a : Nat) (t : Thread)
    (h : ts.find? (fun t => decide (t.record = a)) = some t) : t ∈ ts ∧ t.record = a :=
  ⟨List.mem_of_find?_eq_some h, by simpa using List.find?_some h⟩

theorem holdsId_of_not_returned (t : Thread) (h : ∀ g, t.joiner ≠ JoinPhase.returned g) :
    t.holdsId = true := by
  unfold Thread.holdsId
  cases hj : t.joiner with
  | notJoining => rfl
  | looked g => rfl
  | returned g => exact absurd hj (h g)

theorem SysInv_step (sys sys1 : Sys) (a : Action) (hinv : SysInv sys)
    (h : step sys a = some sys1) : SysInv sys1 ∧ sys1.mainId = sys.mainId := by
  obtain ⟨hi, hu, hk⟩ := hinv
  cases a with
  | create self c =>
    simp only [step] at h
    cases hc : GC_pthread_create sys.gc self c with
    | none => rw [hc] at h; cases h
    | some res =>
      rw [hc] at h
      simp only at h
      rcases GC_pthread_create_keys sys.gc self c res hi hu hc with ⟨hn, hs⟩ |
        ⟨r, hn, hrid, hrdet, hst, hi1, hu1⟩
      · rw [hn] at h
        simp only [Option.some.injEq] at h
        subst h
        refine ⟨?_, rfl⟩
        show SysInv { sys with gc := res.state }
        rw [hs]
        exact ⟨hi, hu, hk⟩
      · rw [hn] at h
        simp only at h
        have hhead : (res.state.GC_threads (hv c.pthread_create.2)).head? = some r := by
          rw [hst, Function.update_same]; rfl
        rw [hhead] at h
        simp only at h
        split at h
        · rename_i hcond
          obtain ⟨hid, hheld, hfresh, _⟩ := hcond
          simp only [Option.some.injEq] at h
          subst h
          refine ⟨⟨hi1, hu1, ?_⟩, rfl⟩
          have hkt : keyTable res.state = Function.update (keyTable sys.gc)
              (hv c.pthread_create.2)
              (⟨r.addr, c.pthread_create.2,
                decide (c.attr.getD PTHREAD_CREATE_JOINABLE = PTHREAD_CREATE_DETACHED)⟩ ::
                keyTable sys.gc (hv c.pthread_create.2)) := by
            funext j
            unfold keyTable
            rw [hst]
            by_cases hj : j = hv c.pthread_create.2
            · subst hj
              simp only [Function.update_same, List.map_cons]
              rw [← hrid, ← hrdet]
              rfl
            · simp only [Function.update_noteq hj]
          simp only
          rw [hkt]
          apply KInv_insert _ _ _ hk _ _ _ hid hheld
          intro i k hki e
          apply hfresh
          obtain ⟨p, hp, hpk⟩ := List.mem_map.1 hki
          have hwf := hk.wf i k hki
          refine List.mem_map.2 ⟨p, (mem_allRecords _ _).2 ⟨i, ?_, hp⟩, ?_⟩
          · rw [← hwf]; exact hv_lt _
          · rw [← e, ← hpk]; rfl
        · cases h
  | start a =>
    simp only [step] at h
    cases hf : sys.threads.find? (fun t => decide (t.record = a)) with
    | none => rw [hf] at h; cases h
    | some t =>
      rw [hf] at h
      simp only at h
      obtain ⟨ht, hta⟩ := find?_record _ _ _ hf
      split at h
      · rename_i hph
        simp only [Option.some.injEq] at h
        subst h
        refine ⟨⟨hi, hu, ?_⟩, rfl⟩
        have hhold : t.holdsId = true := by
          apply holdsId_of_not_returned
          intro g hg
          have := hk.retExited t ht g hg
          rw [hph] at this
          cases this
        obtain ⟨r, hr, hkr⟩ := lookup_key sys.gc t.id t.key (hk.head t ht hhold)
        have hme : GC_start_routine_lookup sys.gc t.id = t.record := by
          unfold GC_start_routine_lookup
          rw [hr]
          exact congrArg Key.addr hkr
        apply KInv_setThread _ _ _ hk
        · intro t2; exact ⟨rfl, rfl, rfl⟩
        · intro t2 _ _ hh; exact hh
        · intro t2 ht2 hr2 m hm
          have e : t2 = t := thread_eq_of_record hk.nodupT ht2 ht (hr2.trans hta.symm)
          subst e
          simp only [Phase.running.injEq] at hm
          rw [← hm, hme]
        · intro t2 ht2 _ g hg; exact hk.cached t2 ht2 g hg
        · intro t2 ht2 _ hd; exact hk.detNoJoin t2 ht2 hd
        · intro t2 ht2 hr2 g hg
          have e : t2 = t := thread_eq_of_record hk.nodupT ht2 ht (hr2.trans hta.symm)
          subst e
          have := hk.retExited t2 ht2 g hg
          rw [hph] at this
          cases this
      · cases h
  | finish a result =>
    simp only [step] at h
    cases hf : sys.threads.find? (fun t => decide (t.record = a)) with
    | none => rw [hf] at h; cases h
    | some t =>
      rw [hf] at h
      simp only at h
      obtain ⟨ht, hta⟩ := find?_record _ _ _ hf
      cases hph : t.phase with
      | created => rw [hph] at h; cases h
      | exited => rw [hph] at h; cases h
      | running me =>
        rw [hph] at h
        simp only at h
        cases hg : GC_start_routine_finish sys.gc t.id me result with
        | none => rw [hg] at h; cases h
        | some gc1 =>
          rw [hg] at h
          simp only [Option.some.injEq] at h
          subst h
          have hhold : t.holdsId = true := by
            apply holdsId_of_not_returned
            intro g hgj
            have := hk.retExited t ht g hgj
            rw [hph] at this
            cases this
          obtain ⟨hkt, hi1, hu1⟩ := GC_start_routine_finish_keys sys.gc gc1 t.id me result
            t.key (hk.head t ht hhold) hg
          refine ⟨⟨hi1.trans hi, hu1.trans hu, ?_⟩, rfl⟩
          simp only
          by_cases hd : t.detached = true
          · have hd2 : t.key.det = true := hd
            rw [if_pos hd2] at hkt
            rw [hkt, if_pos hd, ← hta]
            exact KInv_erase _ _ _ hk t ht
          · have hd2 : ¬ t.key.det = true := hd
            rw [if_neg hd2] at hkt
            rw [hkt, if_neg hd]
            apply KInv_setThread _ _ _ hk
            · intro t2; exact ⟨rfl, rfl, rfl⟩
            · intro t2 _ _ hh; exact hh
            · intro t2 _ _ m hm; cases hm
            · intro t2 ht2 _ g hgj; exact hk.cached t2 ht2 g hgj
            · intro t2 ht2 _ hdd; exact hk.detNoJoin t2 ht2 hdd
            · intro t2 _ _ g _; rfl
  | exit a =>
    simp only [step] at h
    cases hf : sys.threads.find? (fun t => decide (t.record = a)) with
    | none => rw [hf] at h; cases h
    | some t =>
      rw [hf] at h
      simp only at h
      obtain ⟨ht, hta⟩ := find?_record _ _ _ hf
      cases hph : t.phase with
      | created => rw [hph] at h; cases h
      | exited => rw [hph] at h; cases h
      | running me =>
        rw [hph] at h
        simp only at h
        cases hg : GC_thread_exit_proc sys.gc t.id with
        | none => rw [hg] at h; cases h
        | some gc1 =>
          rw [hg] at h
          simp only [Option.some.injEq] at h
          subst h
          have hhold : t.holdsId = true := by
            apply holdsId_of_not_returned
            intro g hgj
            have := hk.retExited t ht g hgj
            rw [hph] at this
            cases this
          obtain ⟨hkt, hi1, hu1⟩ := GC_thread_exit_proc_keys sys.gc gc1 t.id
            t.key (hk.head t ht hhold) hg
          refine ⟨⟨hi1.trans hi, hu1.trans hu, ?_⟩, rfl⟩
          simp only
          by_cases hd : t.detached = true
          · have hd2 : t.key.det = true := hd
            rw [if_pos hd2] at hkt
            rw [hkt, if_pos hd, ← hta]
            exact KInv_erase _ _ _ hk t ht
          · have hd2 : ¬ t.key.det = true := hd
            rw [if_neg hd2] at hkt
            rw [hkt, if_neg hd]
            apply KInv_setThread _ _ _ hk
            · intro t2; exact ⟨rfl, rfl, rfl⟩
            · intro t2 _ _ hh; exact hh
            · intro t2 _ _ m hm; cases hm
            · intro t2 ht2 _ g hgj; exact hk.cached t2 ht2 g hgj
            · intro t2 ht2 _ hdd; exact hk.detNoJoin t2 ht2 hdd
            · intro t2 _ _ g _; rfl
  | joinLookup a =>
    simp only [step] at h
    cases hf : sys.threads.find? (fun t => decide (t.record = a)) with
    | none => rw [hf] at h; cases h
    | some t =>
      rw [hf] at h
      simp only at h
      obtain ⟨ht, hta⟩ := find?_record _ _ _ hf
      split at h
      · rename_i hcond
        obtain ⟨hdet, hjoin⟩ := hcond
        simp only [Option.some.injEq] at h
        subst h
        refine ⟨⟨hi, hu, ?_⟩, rfl⟩
        have hhold : t.holdsId = true := by
          apply holdsId_of_not_returned
          intro g hg
          rw [hjoin] at hg
          cases hg
        obtain ⟨r, hr, hkr⟩ := lookup_key sys.gc t.id t.key (hk.head t ht hhold)
        have hme : GC_pthread_join_lookup sys.gc t.id = t.record := by
          unfold GC_pthread_join_lookup
          rw [hr]
          exact congrArg Key.addr hkr
        apply KInv_setThread _ _ _ hk
        · intro t2; exact ⟨rfl, rfl, rfl⟩
        · intro t2 ht2 hr2 _
          have e : t2 = t := thread_eq_of_record hk.nodupT ht2 ht (hr2.trans hta.symm)
          rw [e]; exact hhold
        · intro t2 ht2 _ m hm; exact hk.me t2 ht2 m hm
        · intro t2 ht2 hr2 g hg
          have e : t2 = t := thread_eq_of_record hk.nodupT ht2 ht (hr2.trans hta.symm)
          subst e
          rcases hg with hg | hg
          · simp only [JoinPhase.looked.injEq] at hg
            rw [← hg, hme]
          · cases hg
        · intro t2 ht2 hr2 hd
          have e : t2 = t := thread_eq_of_record hk.nodupT ht2 ht (hr2.trans hta.symm)
          subst e
          rw [hdet] at hd
          cases hd
        · intro t2 _ _ g hg; cases hg
      · cases h
  | joinReturn a =>
    simp only [step] at h
    cases hf : sys.threads.find? (fun t => decide (t.record = a)) with
    | none => rw [hf] at h; cases h
    | some t =>
      rw [hf] at h
      simp only at h
      obtain ⟨ht, hta⟩ := find?_record _ _ _ hf
      split at h
      · rename_i g hph hjoin
        simp only [Option.some.injEq] at h
        subst h
        refine ⟨⟨hi, hu, ?_⟩, rfl⟩
        apply KInv_setThread _ _ _ hk
        · intro t2; exact ⟨rfl, rfl, rfl⟩
        · intro t2 _ _ hh
          simp [Thread.holdsId] at hh
        · intro t2 ht2 _ m hm; exact hk.me t2 ht2 m hm
        · intro t2 ht2 hr2 g2 hg
          have e : t2 = t := thread_eq_of_record hk.nodupT ht2 ht (hr2.trans hta.symm)
          subst e
          rcases hg with hg | hg
          · cases hg
          · simp only [JoinPhase.returned.injEq] at hg
            rw [← hg]
            exact hk.cached t2 ht2 g (Or.inl hjoin)
        · intro t2 ht2 hr2 hd
          have e : t2 = t := thread_eq_of_record hk.nodupT ht2 ht (hr2.trans hta.symm)
          subst e
          have := hk.detNoJoin t2 ht2 hd
          rw [hjoin] at this
          cases this
        · intro t2 ht2 hr2 g2 _
          have e : t2 = t := thread_eq_of_record hk.nodupT ht2 ht (hr2.trans hta.symm)
          subst e
          exact hph
      · cases h
  | joinDelete a =>
    simp only [step] at h
    cases hf : sys.threads.find? (fun t => decide (t.record = a)) with
    | none => rw [hf] at h; cases h
    | some t =>
      rw [hf] at h
      simp only at h
      obtain ⟨ht, hta⟩ := find?_record _ _ _ hf
      cases hj : t.joiner with
      | notJoining => rw [hj] at h; cases h
      | looked g => rw [hj] at h; cases h
      | returned g =>
        rw [hj] at h
        simp only at h
        cases hg : GC_pthread_join_delete sys.gc t.id g with
        | none => rw [hg] at h; cases h
        | some gc1 =>
          rw [hg] at h
          simp only [Option.some.injEq] at h
          subst h
          have hgr : g = t.record := hk.cached t ht g (Or.inr hj)
          obtain ⟨hkt, hi1, hu1⟩ := GC_pthread_join_delete_keys sys.gc gc1 t.id g t.key
            (hk.own t ht) hgr.symm (hk.nodupB _) hg
          refine ⟨⟨hi1.trans hi, hu1.trans hu, ?_⟩, rfl⟩
          simp only
          rw [hkt, ← hta]
          exact KInv_erase _ _ _ hk t ht


theorem SysInv_run : ∀ (acts : List Action) (sys0 sys : Sys),
    SysInv sys0 → run sys0 acts = some sys → SysInv sys := by
  intro acts
  induction acts with
  | nil =>
    intro sys0 sys hinv h
    simp only [run, Option.some.injEq] at h
    subst h
    exact hinv
  | cons a rest ih =>
    intro sys0 sys hinv h
    rw [run] at h
    cases hs : step sys0 a with
    | none => rw [hs] at h; cases h
    | some s1 =>
      rw [hs] at h
      exact ih s1 sys (SysInv_step sys0 s1 a hinv hs).1 h

theorem SysInv_afterInit (a0 mainId sp : Nat) (sys0 : Sys)
    (h : afterInit a0 mainId sp = some sys0) : SysInv sys0 := by
  unfold afterInit at h
  cases hg : GC_thr_init (boot a0) mainId initOk none sp with
  | none => rw [hg] at h; cases h
  | some gc =>
    rw [hg] at h
    simp only [Option.map_some', Option.some.injEq] at h
    subst h
    obtain ⟨ht, hi, hu⟩ := GC_thr_init_boot a0 mainId sp initOk none gc hg
    refine ⟨hi, hu, ?_⟩
    have hmem : ∀ i, ∀ k ∈ keyTable gc i, i = hv mainId ∧ k.id = mainId := by
      intro i k hk
      unfold keyTable at hk
      rw [ht] at hk
      by_cases hi2 : i = hv mainId
      · subst hi2
        simp only [Function.update_same, List.map_cons, List.map_nil, List.mem_singleton] at hk
        rw [hk]
        exact ⟨rfl, rfl⟩
      · simp [Function.update, hi2] at hk
    refine ⟨?_, ?_, ?_, ?_, ?_, ?_, ?_, ?_, ?_, ?_, ?_, ?_⟩
    · intro i k hk
      obtain ⟨h1, h2⟩ := hmem i k hk
      rw [h2, h1]
    · intro i
      unfold keyTable
      rw [ht]
      by_cases hi2 : i = hv mainId
      · subst hi2
        simp
      · simp [Function.update, hi2]
    · intro i k hk
      left
      exact ⟨(hmem i k hk).2, fun t ht => by simp at ht⟩
    · simp
    all_goals (intro t ht; simp at ht)

theorem countP_flatMap_zero (P : GC_Thread_Rep → Bool) (f : Nat → List GC_Thread_Rep)
    (l : List Nat) (h : ∀ i ∈ l, ∀ r ∈ f i, P r = false) :
    (l.flatMap f).countP P = 0 := by
  rw [List.countP_eq_zero]
  intro r hr
  obtain ⟨i, hi, hri⟩ := List.mem_flatMap.1 hr
  rw [h i hi r hri]
  simp

theorem countP_flatMap_local (P : GC_Thread_Rep → Bool) (f : Nat → List GC_Thread_Rep)
    (i0 : Nat) (hother : ∀ i, i ≠ i0 → ∀ r ∈ f i, P r = false) :
    ∀ n, i0 < n → ((List.range n).flatMap f).countP P = (f i0).countP P := by
  intro n
  induction n with
  | zero => intro h; omega
  | succ n ih =>
    intro hlt
    rw [List.range_succ, List.flatMap_append, List.countP_append]
    simp only [List.flatMap_cons, List.flatMap_nil, List.append_nil]
    by_cases h : i0 < n
    · rw [ih h]
      have hn : n ≠ i0 := by omega
      have : (f n).countP P = 0 := by
        rw [List.countP_eq_zero]
        intro r hr
        rw [hother n hn r hr]
        simp
      rw [this, Nat.add_zero]
    · have hn : i0 = n := by omega
      subst hn
      rw [countP_flatMap_zero P f (List.range i0), Nat.zero_add]
      intro i hi r hr
      have : i ≠ i0 := by
        have := List.mem_range.1 hi
        omega
      exact hother i this r hr

/-- C6, as stated, fails: `recycleSys` is reached after `GC_thr_init` by
create, start, exit and join steps; the thread created last in it is neither
finished nor joined, and the table holds two records with its id 7. -/
theorem lifecycle_two_records_same_id :
    Reachable recycleSys ∧
      recycleSys.threads =
        [⟨7, 8192, false, Phase.created, JoinPhase.notJoining⟩,
          ⟨7, 4096, false, Phase.exited, JoinPhase.returned 4096⟩] ∧
      (allRecords recycleSys.gc).countP (fun r => decide (r.id = 7)) = 2 :=
  ⟨⟨1000, 1, 5, bootedSys, recycleActs, by decide, rfl, rfl⟩, rfl, rfl⟩

/-- C6, amended: in every state reached after `GC_thr_init` by create,
start, exit and join steps (the kernel gives a new thread only an identity
that no thread holds; a join targets a joinable thread that nobody joins
yet), every thread created through `GC_pthread_create` and not yet reaped
has exactly one record of its own in the table, and that record carries its
id; so the table holds at least one record with a matching id, and exactly
one when no other thread that is not yet reaped has the same identity; and
as long as the thread holds its identity, `GC_lookup_thread` of its id
returns its own record. -/
theorem lifecycle_own_record (sys : Sys) (h : Reachable sys) (t : Thread)
    (ht : t ∈ sys.threads) :
    (allRecords sys.gc).countP (fun r => decide (r.addr = t.record)) = 1 ∧
    (∀ r ∈ allRecords sys.gc, r.addr = t.record → r.id = t.id) ∧
    1 ≤ (allRecords sys.gc).countP (fun r => decide (r.id = t.id)) ∧
    ((∀ t1 ∈ sys.threads, t1.id = t.id → t1 = t) →
      (allRecords sys.gc).countP (fun r => decide (r.id = t.id)) = 1) ∧
    (t.holdsId = true →
      ∃ r, GC_lookup_thread sys.gc t.id = some r ∧ r.addr = t.record) := by
  obtain ⟨a0, mainId, sp, sys0, acts, _, h0, hrun⟩ := h
  obtain ⟨_, _, hk⟩ := SysInv_run acts sys0 sys (SysInv_afterInit a0 mainId sp sys0 h0) hrun
  have hA : ∀ i, ∀ r ∈ sys.gc.GC_threads i, r.addr = t.record → i = hv t.id ∧ r.id = t.id := by
    intro i r hr haddr
    have hkr : key r ∈ keyTable sys.gc i := List.mem_map.2 ⟨r, hr, rfl⟩
    rcases hk.owner i _ hkr with ⟨_, h2⟩ | ⟨t1, ht1, e⟩
    · exact absurd haddr.symm (h2 t ht)
    · have hrec : t1.record = t.record := (congrArg Key.addr e).trans haddr
      have e1 : t1 = t := thread_eq_of_record hk.nodupT ht1 ht hrec
      subst e1
      have hid : t1.id = r.id := congrArg Key.id e
      have hwf := hk.wf i _ hkr
      refine ⟨?_, hid.symm⟩
      rw [← hwf, hid]
      rfl
  obtain ⟨r0, hr0, hkr0⟩ := List.mem_map.1 (hk.own t ht)
  have hr0a : r0.addr = t.record := congrArg Key.addr hkr0
  have hr0i : r0.id = t.id := congrArg Key.id hkr0
  have hr0all : r0 ∈ allRecords sys.gc := (mem_allRecords _ _).2 ⟨_, hv_lt _, hr0⟩
  have h2 : ∀ r ∈ allRecords sys.gc, r.addr = t.record → r.id = t.id := by
    intro r hr haddr
    obtain ⟨i, _, hri⟩ := (mem_allRecords _ _).1 hr
    exact (hA i r hri haddr).2
  have h1 : (allRecords sys.gc).countP (fun r => decide (r.addr = t.record)) = 1 := by
    unfold allRecords
    rw [countP_flatMap_local _ _ (hv t.id) _ _ (hv_lt _)]
    · have hnd : ((sys.gc.GC_threads (hv t.id)).map (fun r => r.addr)).Nodup := by
        have := hk.nodupB (hv t.id)
        unfold keyTable at this
        rw [List.map_map] at this
        exact this
      have hc := List.count_eq_one_of_mem hnd (List.mem_map.2 ⟨r0, hr0, hr0a⟩)
      rw [List.count, List.countP_map] at hc
      rw [← hc]
      apply List.countP_congr
      intro r _
      simp
    · intro i hi r hr
      simp only [decide_eq_false_iff_not]
      intro haddr
      exact hi (hA i r hr haddr).1
  refine ⟨h1, h2, ?_, ?_, ?_⟩
  · have : 0 < (allRecords sys.gc).countP (fun r => decide (r.id = t.id)) := by
      rw [List.countP_pos_iff]
      exact ⟨r0, hr0all, by simpa using hr0i⟩
    exact this
  · intro huniq
    rw [← h1]
    apply List.countP_congr
    intro r hr
    simp only [decide_eq_true_eq]
    constructor
    · intro hid
      obtain ⟨i, _, hri⟩ := (mem_allRecords _ _).1 hr
      have hkr : key r ∈ keyTable sys.gc i := List.mem_map.2 ⟨r, hri, rfl⟩
      rcases hk.owner i _ hkr with ⟨hm, _⟩ | ⟨t1, ht1, e⟩
      · have hm2 : r.id = sys.mainId := hm
        exact absurd (hid.symm.trans hm2) (hk.notMain t ht)
      · have hid1 : t1.id = t.id := (congrArg Key.id e).trans hid
        have e1 := huniq t1 ht1 hid1
        subst e1
        exact (congrArg Key.addr e).symm
    · exact h2 r hr
  · intro hh
    obtain ⟨r, hr, hkr⟩ := lookup_key sys.gc t.id t.key (hk.head t ht hh)
    exact ⟨r, hr, congrArg Key.addr hkr⟩

/-- C6, amended, at a concrete state: in `recycleSys` the thread created
last has exactly one record of its own, the one at 8192. -/
theorem lifecycle_own_record_witness :
    Reachable recycleSys ∧
      (⟨7, 8192, false, Phase.created, JoinPhase.notJoining⟩ : Thread) ∈ recycleSys.threads ∧
      (allRecords recycleSys.gc).countP (fun r => decide (r.addr = 8192)) = 1 :=
  ⟨⟨1000, 1, 5, bootedSys, recycleActs, by decide, rfl, rfl⟩, by decide,
    (lifecycle_own_record recycleSys ⟨1000, 1, 5, bootedSys, recycleActs, by decide, rfl, rfl⟩
      ⟨7, 8192, false, Phase.created, JoinPhase.notJoining⟩ (by decide)).1⟩

/-! ## `GC_thread_exit_proc` -/

theorem chain_split_of_find? (id : Nat) (f : GC_Thread_Rep → GC_Thread_Rep) :
    ∀ (l : List GC_Thread_Rep) (me : GC_Thread_Rep),
      l.find? (fun p => decide (p.id = id)) = some me →
      ∃ l1 l2, l = l1 ++ me :: l2 ∧ (∀ p ∈ l1, p.id ≠ id) ∧
        unlinkId id l = some (l1 ++ l2) ∧ modifyId id f l = l1 ++ f me :: l2 := by
  intro l
  induction l with
  | nil => intro me h; simp at h
  | cons x xs ih =>
    intro me h
    rw [List.find?_cons] at h
    by_cases hx : x.id = id
    · simp only [hx, decide_True, Option.some.injEq] at h
      subst h
      refine ⟨[], xs, rfl, ?_, ?_, ?_⟩
      · intro p hp; simp at hp
      · simp [unlinkId, hx]
      · simp [modifyId, hx]
    · simp only [hx, decide_False] at h
      obtain ⟨l1, l2, h1, h2, h3, h4⟩ := ih me h
      refine ⟨x :: l1, l2, by rw [h1]; rfl, ?_, ?_, ?_⟩
      · intro p hp
        rcases List.mem_cons.1 hp with e | e
        · rw [e]; exact hx
        · exact h2 p e
      · simp [unlinkId, hx, h3]
      · simp [modifyId, hx, h4]

theorem testBit_or_FINISHED (flags i : Nat) (hi : i ≠ 0) :
    (flags ||| FINISHED).testBit i = flags.testBit i := by
  rw [Nat.testBit_or]
  have : FINISHED.testBit i = false := by
    unfold FINISHED
    rw [show (1 : Nat) = 2 ^ 0 by rfl, Nat.testBit_two_pow]
    simp only [decide_eq_false_iff_not]
    exact fun e => hi e.symm
  rw [this, Bool.or_false]

theorem hasFlag_FINISHED_set (p : GC_Thread_Rep) :
    hasFlag { p with flags := p.flags ||| FINISHED } FINISHED = true := by
  unfold hasFlag
  simp only [bne_iff_ne, ne_eq]
  intro h
  have h0 : ((p.flags ||| FINISHED) &&& FINISHED).testBit 0 = true := by
    rw [Nat.testBit_and, Nat.testBit_or]
    simp [FINISHED]
  rw [h] at h0
  simp at h0

theorem hasFlag_MAIN_THREAD_keep (p : GC_Thread_Rep) :
    hasFlag { p with flags := p.flags ||| FINISHED } MAIN_THREAD = hasFlag p MAIN_THREAD := by
  unfold hasFlag
  have : (p.flags ||| FINISHED) &&& MAIN_THREAD = p.flags &&& MAIN_THREAD := by
    rw [Nat.and_comm, Nat.and_or_distrib_left]
    have e : MAIN_THREAD &&& FINISHED = 0 := by decide
    rw [e, Nat.or_zero, Nat.and_comm]
  simp only [this]

theorem addr_not_in_other_bucket (s : GCState)
    (hnd : ((allRecords s).map (fun p => p.addr)).Nodup) (i j : Nat)
    (hi : i < THREAD_TABLE_SZ) (hj : j < THREAD_TABLE_SZ) (hij : i ≠ j)
    (p q : GC_Thread_Rep) (hp : p ∈ s.GC_threads i) (hq : q ∈ s.GC_threads j) :
    p.addr ≠ q.addr := by
  unfold allRecords at hnd
  rw [List.map_flatMap, List.nodup_flatMap] at hnd
  have hsym : Symmetric (fun a b : Nat =>
      List.Disjoint ((s.GC_threads a).map (fun p => p.addr))
        ((s.GC_threads b).map (fun p => p.addr))) := by
    intro a b hab
    exact hab.symm
  have hd := hnd.2.forall hsym (List.mem_range.2 hi) (List.mem_range.2 hj) hij
  intro e
  exact hd (List.mem_map.2 ⟨p, hp, rfl⟩) (List.mem_map.2 ⟨q, hq, e.symm⟩)

theorem chain_nodup_of_table (s : GCState)
    (hnd : ((allRecords s).map (fun p => p.addr)).Nodup) (i : Nat)
    (hi : i < THREAD_TABLE_SZ) : ((s.GC_threads i).map (fun p => p.addr)).Nodup := by
  unfold allRecords at hnd
  rw [List.map_flatMap, List.nodup_flatMap] at hnd
  exact hnd.1 i (List.mem_range.2 hi)

/-- C11: if `GC_lookup_thread` of the exiting thread's id returns the record
`me` (its record is the head-most with its id), `GC_thread_exit_proc`
returns; the chain of its bucket is `l1 ++ me :: l2` with no record of that
id in `l1`, and every other bucket is left as it is.  If `me` has `DETACHED`
set, the chain becomes `l1 ++ l2`: exactly `me` is unlinked, every other
record stays in place unchanged, and (records of a table having distinct
addresses) no record of the table is at the address of `me` any more.
Otherwise the chain becomes `l1 ++ me1 :: l2` where `me1` is `me` with
`FINISHED` set: nothing is removed, every flag bit of `me` other than
`FINISHED` (so `DETACHED` and `MAIN_THREAD`) and every other field keeps its
value, and every other record is unchanged. -/
theorem GC_thread_exit_proc_effect (s : GCState) (self : Nat) (me : GC_Thread_Rep)
    (hme : GC_lookup_thread s self = some me) :
    ∃ s1 l1 l2, GC_thread_exit_proc s self = some s1 ∧
      s.GC_threads (hv self) = l1 ++ me :: l2 ∧
      (∀ p ∈ l1, p.id ≠ self) ∧
      (∀ i, i ≠ hv self → s1.GC_threads i = s.GC_threads i) ∧
      (hasFlag me DETACHED = true →
        s1.GC_threads (hv self) = l1 ++ l2 ∧
        (((allRecords s).map (fun p => p.addr)).Nodup →
          ∀ p ∈ allRecords s1, p.addr ≠ me.addr)) ∧
      (hasFlag me DETACHED = false →
        s1.GC_threads (hv self) = l1 ++ { me with flags := me.flags ||| FINISHED } :: l2 ∧
        hasFlag { me with flags := me.flags ||| FINISHED } FINISHED = true ∧
        hasFlag { me with flags := me.flags ||| FINISHED } DETACHED = hasFlag me DETACHED ∧
        hasFlag { me with flags := me.flags ||| FINISHED } MAIN_THREAD =
          hasFlag me MAIN_THREAD ∧
        ∀ i, i ≠ 0 → (me.flags ||| FINISHED).testBit i = me.flags.testBit i) := by
  have hfind : (s.GC_threads (hv self)).find? (fun p => decide (p.id = self)) = some me := hme
  obtain ⟨l1, l2, h1, h2, h3, h4⟩ := chain_split_of_find? self
    (fun p => { p with flags := p.flags ||| FINISHED }) _ me hfind
  cases hd : hasFlag me DETACHED with
  | true =>
    refine ⟨setBucket s (hv self) (l1 ++ l2), l1, l2, ?_, h1, h2,
      fun i hi => setBucket_other _ _ _ _ hi, ?_, ?_⟩
    · simp [GC_thread_exit_proc, hme, hd, GC_delete_thread, h3]
    · intro _
      refine ⟨setBucket_same _ _ _, ?_⟩
      intro hnd p hp
      obtain ⟨i, hi, hpi⟩ := (mem_allRecords _ _).1 hp
      have hmem : me ∈ s.GC_threads (hv self) := by rw [h1]; simp
      by_cases hih : i = hv self
      · subst hih
        rw [setBucket_same] at hpi
        have hc := chain_nodup_of_table s hnd _ hi
        rw [h1, List.map_append, List.map_cons] at hc
        have hc2 := List.nodup_middle.1 hc
        rw [List.nodup_cons, ← List.map_append] at hc2
        intro e
        exact hc2.1 (List.mem_map.2 ⟨p, hpi, e⟩)
      · rw [setBucket_other _ _ _ _ hih] at hpi
        exact addr_not_in_other_bucket s hnd i (hv self) hi (hv_lt _) hih p me hpi hmem
    · intro hc; cases hc
  | false =>
    refine ⟨setBucket s (hv self) (l1 ++ { me with flags := me.flags ||| FINISHED } :: l2),
      l1, l2, ?_, h1, h2, fun i hi => setBucket_other _ _ _ _ hi, ?_, ?_⟩
    · simp [GC_thread_exit_proc, hme, hd, h4]
    · intro hc; cases hc
    · intro _
      exact ⟨setBucket_same _ _ _, hasFlag_FINISHED_set me,
        by rw [hasFlag_or_FINISHED me _ rfl _ rfl, hd], hasFlag_MAIN_THREAD_keep me,
        fun i hi => testBit_or_FINISHED me.flags i hi⟩

/-- C11 at concrete inputs: in `recycledTable` the exiting thread 7 is not
detached, so its record at 8192 gets `FINISHED` and the older record with
the same id stays as it is; in `detachedTable` it is detached, so its record
is unlinked and the older record stays. -/
theorem GC_thread_exit_proc_effect_witness :
    GC_lookup_thread recycledTable 7 = some ⟨8192, 7, 0, 0, 0, 0, 0⟩ ∧
      (GC_thread_exit_proc recycledTable 7).map (fun s1 => s1.GC_threads (hv 7)) =
        some [⟨8192, 7, 1, 0, 0, 0, 0⟩, ⟨4096, 7, 1, 0, 0, 0, 0⟩] ∧
      (GC_thread_exit_proc detachedTable 7).map (fun s1 => allRecords s1) =
        some [⟨4096, 7, 1, 0, 0, 0, 0⟩] ∧
      (∃ s1 l1 l2, GC_thread_exit_proc detachedTable 7 = some s1 ∧
        detachedTable.GC_threads (hv 7) = l1 ++ ⟨8192, 7, 2, 0, 0, 0, 0⟩ :: l2 ∧
        (∀ p ∈ l1, p.id ≠ 7) ∧
        (∀ i, i ≠ hv 7 → s1.GC_threads i = detachedTable.GC_threads i) ∧
        (hasFlag ⟨8192, 7, 2, 0, 0, 0, 0⟩ DETACHED = true →
          s1.GC_threads (hv 7) = l1 ++ l2 ∧
          (((allRecords detachedTable).map (fun p => p.addr)).Nodup →
            ∀ p ∈ allRecords s1, p.addr ≠ (⟨8192, 7, 2, 0, 0, 0, 0⟩ : GC_Thread_Rep).addr)) ∧
        (hasFlag ⟨8192, 7, 2, 0, 0, 0, 0⟩ DETACHED = false →
          s1.GC_threads (hv 7) =
            l1 ++ { (⟨8192, 7, 2, 0, 0, 0, 0⟩ : GC_Thread_Rep) with
              flags := (⟨8192, 7, 2, 0, 0, 0, 0⟩ : GC_Thread_Rep).flags ||| FINISHED } :: l2 ∧
          hasFlag { (⟨8192, 7, 2, 0, 0, 0, 0⟩ : GC_Thread_Rep) with
            flags := (⟨8192, 7, 2, 0, 0, 0, 0⟩ : GC_Thread_Rep).flags ||| FINISHED }
              FINISHED = true ∧
          hasFlag { (⟨8192, 7, 2, 0, 0, 0, 0⟩ : GC_Thread_Rep) with
            flags := (⟨8192, 7, 2, 0, 0, 0, 0⟩ : GC_Thread_Rep).flags ||| FINISHED }
              DETACHED = hasFlag ⟨8192, 7, 2, 0, 0, 0, 0⟩ DETACHED ∧
          hasFlag { (⟨8192, 7, 2, 0, 0, 0, 0⟩ : GC_Thread_Rep) with
            flags := (⟨8192, 7, 2, 0, 0, 0, 0⟩ : GC_Thread_Rep).flags ||| FINISHED }
              MAIN_THREAD = hasFlag ⟨8192, 7, 2, 0, 0, 0, 0⟩ MAIN_THREAD ∧
          ∀ i, i ≠ 0 →
            ((⟨8192, 7, 2, 0, 0, 0, 0⟩ : GC_Thread_Rep).flags ||| FINISHED).testBit i =
              (⟨8192, 7, 2, 0, 0, 0, 0⟩ : GC_Thread_Rep).flags.testBit i)) :=
  ⟨rfl, rfl, rfl,
    GC_thread_exit_proc_effect detachedTable 7 ⟨8192, 7, 2, 0, 0, 0, 0⟩ rfl⟩


/-! ## `GC_linux_thread_top_of_stack` -/

theorem or_low_mask (sp k : Nat) :
    sp ||| (2 ^ k - 1) = 2 ^ k * (sp / 2 ^ k) + (2 ^ k - 1) := by
  apply Nat.eq_of_testBit_eq
  intro j
  have hlt : 2 ^ k - 1 < 2 ^ k := Nat.sub_lt (Nat.two_pow_pos k) (by decide)
  rw [Nat.testBit_or, Nat.testBit_two_pow_sub_one, Nat.testBit_mul_pow_two_add _ hlt,
    Nat.testBit_two_pow_sub_one]
  by_cases hj : j < k
  · simp [hj]
  · simp only [hj, decide_False, Bool.or_false, if_false]
    rw [← Nat.shiftRight_eq_div_pow, Nat.testBit_shiftRight]
    congr 1
    omega

theorem top_of_stack_eq (w sp : Nat) (h : sp + LINUX_THREADS_STACK_SIZE < 2 ^ w) :
    GC_linux_thread_top_of_stack w sp = (sp / 2 ^ 21 + 1) * 2 ^ 21 := by
  unfold GC_linux_thread_top_of_stack
  have hs : LINUX_THREADS_STACK_SIZE = 2 ^ 21 := by decide
  rw [hs] at h ⊢
  rw [or_low_mask]
  have hpos : 0 < 2 ^ 21 := by decide
  have hdm := Nat.div_add_mod sp (2 ^ 21)
  have hmod := Nat.mod_lt sp hpos
  have e : 2 ^ 21 * (sp / 2 ^ 21) + (2 ^ 21 - 1) + 1 = (sp / 2 ^ 21 + 1) * 2 ^ 21 := by
    have : 2 ^ 21 - 1 + 1 = 2 ^ 21 := by decide
    rw [Nat.add_assoc, this, Nat.add_mul, Nat.one_mul, Nat.mul_comm]
  rw [e]
  apply Nat.mod_eq_of_lt
  have : (sp / 2 ^ 21 + 1) * 2 ^ 21 = 2 ^ 21 * (sp / 2 ^ 21) + 2 ^ 21 := by
    rw [Nat.add_mul, Nat.one_mul, Nat.mul_comm]
  omega

/-- C12: for a stack pointer `sp` that is not within the last 2 MiB of the
address space of a machine with `w`-bit words, `GC_linux_thread_top_of_stack`
returns `sp` rounded up to the next 2 MiB boundary: the result is a multiple
of `2 ^ 21` (the value of `LINUX_THREADS_STACK_SIZE`), is strictly greater
than `sp` and at most `sp + 2 ^ 21`; it is the least multiple of `2 ^ 21`
strictly above `sp`, and it is above every address of the aligned 2 MiB
block that contains `sp`. -/
theorem GC_linux_thread_top_of_stack_rounds_up (w sp : Nat)
    (h : sp + LINUX_THREADS_STACK_SIZE < 2 ^ w) :
    LINUX_THREADS_STACK_SIZE = 2 ^ 21 ∧
      2 ^ 21 ∣ GC_linux_thread_top_of_stack w sp ∧
      sp < GC_linux_thread_top_of_stack w sp ∧
      GC_linux_thread_top_of_stack w sp ≤ sp + 2 ^ 21 ∧
      (∀ m, 2 ^ 21 ∣ m → sp < m → GC_linux_thread_top_of_stack w sp ≤ m) ∧
      (∀ a, a / 2 ^ 21 = sp / 2 ^ 21 → a < GC_linux_thread_top_of_stack w sp) := by
  rw [top_of_stack_eq w sp h]
  have hdm := Nat.div_add_mod sp (2 ^ 21)
  have hmod := Nat.mod_lt sp (show 0 < 2 ^ 21 by decide)
  have hT : (sp / 2 ^ 21 + 1) * 2 ^ 21 = 2 ^ 21 * (sp / 2 ^ 21) + 2 ^ 21 := by
    rw [Nat.add_mul, Nat.one_mul, Nat.mul_comm]
  refine ⟨by decide, Dvd.intro_left _ rfl, by omega, by omega, ?_, ?_⟩
  · intro m hm hsp
    obtain ⟨c, hc⟩ := hm
    subst hc
    have hq : sp / 2 ^ 21 < c := by
      apply Nat.lt_of_mul_lt_mul_left (a := 2 ^ 21)
      omega
    rw [Nat.mul_comm]
    exact Nat.mul_le_mul_left _ hq
  · intro a ha
    have hda := Nat.div_add_mod a (2 ^ 21)
    have hma := Nat.mod_lt a (show 0 < 2 ^ 21 by decide)
    rw [ha] at hda
    omega

/-- C12 at a concrete input: on a 32-bit machine the stack pointer
`0x40200123` gives the top of stack `0x40400000`. -/
theorem GC_linux_thread_top_of_stack_rounds_up_witness :
    0x40200123 + LINUX_THREADS_STACK_SIZE < 2 ^ 32 ∧
      GC_linux_thread_top_of_stack 32 0x40200123 = 0x40400000 ∧
      2 ^ 21 ∣ GC_linux_thread_top_of_stack 32 0x40200123 ∧
      0x40200123 < GC_linux_thread_top_of_stack 32 0x40200123 :=
  ⟨by decide, by decide,
    (GC_linux_thread_top_of_stack_rounds_up 32 0x40200123 (by decide)).2.1,
    (GC_linux_thread_top_of_stack_rounds_up 32 0x40200123 (by decide)).2.2.1⟩

end LinuxThreads
